import Mathlib

/-!
Verification of the data-cleaning pipeline in `src/pipeline_final.py`.

The pandas DataFrames are embedded shallowly as lists of rows; a missing cell
(NaN) is `Option.none`.  Numeric id columns are modelled as integer-valued
(`Option Int`), the `volumen`/`precio` columns as rationals (`Option ℚ`),
since medians average two values.  String normalisation models the ASCII
fragment of Python `str.strip`/`str.upper`.  pandas `drop_duplicates` treats
NaN cells as equal, which matches `Option` equality.  Where the Python code
can raise (`int(...)` applied to a missing id inside the OTHER-row handling),
the embedding returns `none`.
-/

/-- The whitespace characters recognised by Python `str.strip` (ASCII subset). -/
def isPySpace (c : Char) : Bool :=
  c = ' ' || c = '\t' || c = '\n' || c = '\r' || c = '\x0b' || c = '\x0c'

/-- Python `str.strip` on a character list: drop leading and trailing whitespace. -/
def stripChars (l : List Char) : List Char :=
  ((l.dropWhile isPySpace).reverse.dropWhile isPySpace).reverse

/-- Models pandas `.str.strip()`. -/
def pyStrip (s : String) : String := ⟨stripChars s.data⟩

/-- Models pandas `.str.upper()` (ASCII letters, via `Char.toUpper`). -/
def pyUpper (s : String) : String := ⟨s.data.map Char.toUpper⟩

/-- Models pandas `.astype(str)` on a possibly missing string cell: NaN prints as "nan". -/
def astypeStr (o : Option String) : String := o.getD "nan"

/-- The label normalisation `.astype(str).str.strip().str.upper()` used for all
label columns in the source. -/
def normLabel (o : Option String) : String := pyUpper (pyStrip (astypeStr o))

/-- Helper for `dedup`: keep elements not seen before. -/
def dedupAux {α : Type} [DecidableEq α] (seen : List α) : List α → List α
  | [] => []
  | x :: xs => if x ∈ seen then dedupAux seen xs else x :: dedupAux (x :: seen) xs

/-- Models pandas `drop_duplicates()` (keep the first occurrence of each row;
NaN cells compare equal, as pandas does when detecting duplicates). -/
def dedup {α : Type} [DecidableEq α] (l : List α) : List α := dedupAux [] l

/-- Models `Series.max()` on the list of present numeric values (`none` when empty). -/
def maxId : List Int → Option Int
  | [] => none
  | x :: xs =>
    some (match maxId xs with
          | none => x
          | some m => max x m)

/-- Models pandas `Series.median()`: the middle of the sorted non-missing values,
averaging the two middle values for an even count; NaN for an empty series. -/
def medianQ (l : List ℚ) : Option ℚ :=
  let s := List.insertionSort (· ≤ ·) l
  if s.length = 0 then none
  else if s.length % 2 = 1 then s.get? (s.length / 2)
  else
    match s.get? (s.length / 2 - 1), s.get? (s.length / 2) with
    | some a, some b => some ((a + b) / 2)
    | _, _ => none

/-- Helper for `first_mode`: fold over the candidate values keeping the one with
the larger multiplicity in `l`, ties resolved towards the smaller value. -/
def pickMode (l : List Int) : List Int → Option Int → Option Int
  | [], acc => acc
  | c :: cs, acc =>
    pickMode l cs
      (match acc with
       | none => some c
       | some b =>
         if l.count c > l.count b ∨ (l.count c = l.count b ∧ c < b) then some c
         else some b)

/-- Models `first_mode`: `Series.mode(dropna=True)` sorts the most frequent
values ascending and `.iloc[0]` takes the smallest of them; NaN when the series
has no non-missing value.  The argument is the list of present values. -/
def first_mode (l : List Int) : Option Int := pickMode l (dedup l) none

/-- Models the optional `fillna(fill_value)` step of `safe_int_cast`. -/
def fillnaOpt (fill : Option Int) (o : Option Int) : Option Int :=
  match fill with
  | some v => some (o.getD v)
  | none => o

/-- Models `safe_int_cast` on an integer-valued numeric column (`pd.to_numeric`
with coercion is the identity there).  The branch structure mirrors the source:
fill with `fill_value` when given; if missing values remain, go through the
nullable representation and finally `fillna(0)`; the inner early return of the
source is unreachable and maps to the same expression. -/
def safe_int_cast (series : List (Option Int)) (fill_value : Option Int) : List Int :=
  let s := series.map (fillnaOpt fill_value)
  if s.any (fun o => o.isNone) then
    if s.all (fun o => o.isSome) then s.map (fun o => o.getD 0)
    else s.map (fun o => o.getD 0)
  else s.map (fun o => o.getD 0)

/-- A calendar date, as produced by a successful `pd.Timestamp` construction. -/
structure PDate where
  year : Int
  month : Nat
  day : Nat
deriving DecidableEq, Repr

/-- Gregorian leap-year test, as used by `pd.Timestamp` validity. -/
def isLeap (y : Int) : Bool := y % 4 = 0 && (y % 100 ≠ 0 || y % 400 = 0)

/-- Days in a month of the Gregorian calendar (0 for an invalid month index). -/
def daysInMonth (y : Int) (m : Nat) : Nat :=
  match m with
  | 1 => 31 | 2 => if isLeap y then 29 else 28 | 3 => 31 | 4 => 30
  | 5 => 31 | 6 => 30 | 7 => 31 | 8 => 31
  | 9 => 30 | 10 => 31 | 11 => 30 | 12 => 31
  | _ => 0

/-- Lexicographic comparison of calendar dates, for the `pd.Timestamp` range check. -/
def dateLE (a b : Int × Nat × Nat) : Bool :=
  a.1 < b.1 || (a.1 = b.1 && (a.2.1 < b.2.1 || (a.2.1 = b.2.1 && a.2.2 ≤ b.2.2)))

/-- Does `pd.Timestamp(year=y, month=m, day=d)` succeed?  It requires a real
Gregorian date inside the nanosecond-representable range
1677-09-21 .. 2262-04-11; anything else raises and the caller returns NaT. -/
def tsValid (y : Int) (m d : Nat) : Bool :=
  1 ≤ m && m ≤ 12 && 1 ≤ d && d ≤ daysInMonth y m &&
  dateLE (1677, 9, 21) (y, m, d) && dateLE (y, m, d) (2262, 4, 11)

/-- Decimal value of a digit list. -/
def digitsVal (l : List Char) : Nat :=
  l.foldl (fun acc c => 10 * acc + (c.toNat - 48)) 0

/-- Models the anchored regular-expression match
`\s*(\d{1,2})/(\d{1,2})/(\d{2,4})\s*$` of `parse_mdY` (ASCII digits and
whitespace).  Greedy matching with backtracking against this pattern is
equivalent to taking the maximal digit runs and checking their lengths. -/
def scanMDY (s : String) : Option (Nat × Nat × Nat) :=
  let cs := s.data.dropWhile isPySpace
  let d1 := cs.takeWhile Char.isDigit
  match cs.dropWhile Char.isDigit with
  | '/' :: r1 =>
    let d2 := r1.takeWhile Char.isDigit
    match r1.dropWhile Char.isDigit with
    | '/' :: r2 =>
      let d3 := r2.takeWhile Char.isDigit
      let r3 := r2.dropWhile Char.isDigit
      if 1 ≤ d1.length && d1.length ≤ 2 && 1 ≤ d2.length && d2.length ≤ 2 &&
         2 ≤ d3.length && d3.length ≤ 4 && r3.all isPySpace then
        some (digitsVal d1, digitsVal d2, digitsVal d3)
      else none
    | _ => none
  | _ => none

/-- Models `parse_mdY(s, pivot)`: NaT for a missing scalar or a non-matching
string; a two-digit year is resolved against the pivot; the final
`pd.Timestamp` construction fails to NaT on invalid calendar dates. -/
def parse_mdY (s : Option String) (pivot : Int) : Option PDate :=
  match s with
  | none => none
  | some str =>
    match scanMDY str with
    | none => none
    | some (mm, dd, yy) =>
      let y : Int :=
        if (yy : Int) < 100 then
          (if (yy : Int) < pivot then 2000 + (yy : Int) else 1900 + (yy : Int))
        else (yy : Int)
      if tsValid y mm dd then some ⟨y, mm, dd⟩ else none

/-- Day number of a proleptic-Gregorian date (days since 1970-01-01); models
the day arithmetic of pandas `Timestamp` subtraction (`.dt.days` on exact-day
timestamps). -/
def days_from_civil (dt : PDate) : Int :=
  let y : Int := if dt.month ≤ 2 then dt.year - 1 else dt.year
  let era : Int := Int.fdiv y 400
  let yoe : Int := y - era * 400
  let mp : Int := ((dt.month : Int) + 9) % 12
  let doy : Int := Int.fdiv (153 * mp + 2) 5 + (dt.day : Int) - 1
  let doe : Int := yoe * 365 + Int.fdiv yoe 4 - Int.fdiv yoe 100 + doy
  era * 146097 + doe - 719468

/-- Raw category row: columns `id`, `categoria`. -/
structure CategoriaRow where
  id : Option Int
  categoria : Option String
deriving DecidableEq, Repr

/-- Category row after label normalisation (the label column is a string). -/
structure CategoriaNRow where
  id : Option Int
  categoria : String
deriving DecidableEq, Repr

/-- Cleaned category row: integer id, normalised label. -/
structure CategoriaCleanRow where
  id : Int
  categoria : String
deriving DecidableEq, Repr

/-- The label-normalisation stage of `prepare_categoria`:
`categoria["categoria"].astype(str).str.strip().str.upper()`. -/
def catNorm (categoria : List CategoriaRow) : List CategoriaNRow :=
  categoria.map (fun r => ⟨r.id, normLabel r.categoria⟩)

/-- The row-dropping stages of `prepare_categoria`: remove rows whose id is
missing and whose label (with the literal "NAN" read as empty) strips to the
empty string, then `drop_duplicates(subset=["id", "categoria"])`. -/
def catBase (categoria : List CategoriaRow) : List CategoriaNRow :=
  dedup ((catNorm categoria).filter (fun r =>
    !(r.id.isNone && (pyStrip (if r.categoria = "NAN" then "" else r.categoria) = ""))))

/-- Models `prepare_categoria`.  Returns `none` exactly where the Python code
raises: `int(pd.to_numeric(...).iloc[0])` applied to a missing id on the first
OTHER row. -/
def prepare_categoria (categoria : List CategoriaRow) :
    Option (List CategoriaCleanRow × Int) :=
  let t2 := catBase categoria
  if t2.any (fun r => r.categoria = "OTHER") then
    match t2.find? (fun r => r.categoria = "OTHER") with
    | none => none
    | some rOther =>
      match rOther.id with
      | none => none
      | some k =>
        some (List.zipWith (fun (r : CategoriaNRow) (i : Int) => ⟨i, r.categoria⟩)
                t2 (safe_int_cast (t2.map (fun r => r.id)) (some k)), k)
  else
    let other := (maxId (t2.filterMap (fun r => r.id))).getD 0 + 1
    let t3 := t2 ++ [⟨some other, "OTHER"⟩]
    some (List.zipWith (fun (r : CategoriaNRow) (i : Int) => ⟨i, r.categoria⟩)
            t3 (safe_int_cast (t3.map (fun r => r.id)) (some other)), other)

/-- Raw brand row: columns `id`, `marca`. -/
structure MarcaRow where
  id : Option Int
  marca : Option String
deriving DecidableEq, Repr

/-- Brand row after label normalisation. -/
structure MarcaNRow where
  id : Option Int
  marca : String
deriving DecidableEq, Repr

/-- Cleaned brand row. -/
structure MarcaCleanRow where
  id : Int
  marca : String
deriving DecidableEq, Repr

/-- The label-normalisation stage of `prepare_marca`. -/
def marcaNorm (marca : List MarcaRow) : List MarcaNRow :=
  marca.map (fun r => ⟨r.id, normLabel r.marca⟩)

/-- The row-dropping stages of `prepare_marca` (as for the category table). -/
def marcaBase (marca : List MarcaRow) : List MarcaNRow :=
  dedup ((marcaNorm marca).filter (fun r =>
    !(r.id.isNone && (pyStrip (if r.marca = "NAN" then "" else r.marca) = ""))))

/-- Models `prepare_marca` (the source duplicates the category logic verbatim
for the brand table). -/
def prepare_marca (marca : List MarcaRow) : Option (List MarcaCleanRow × Int) :=
  let t2 := marcaBase marca
  if t2.any (fun r => r.marca = "OTHER") then
    match t2.find? (fun r => r.marca = "OTHER") with
    | none => none
    | some rOther =>
      match rOther.id with
      | none => none
      | some k =>
        some (List.zipWith (fun (r : MarcaNRow) (i : Int) => ⟨i, r.marca⟩)
                t2 (safe_int_cast (t2.map (fun r => r.id)) (some k)), k)
  else
    let other := (maxId (t2.filterMap (fun r => r.id))).getD 0 + 1
    let t3 := t2 ++ [⟨some other, "OTHER"⟩]
    some (List.zipWith (fun (r : MarcaNRow) (i : Int) => ⟨i, r.marca⟩)
            t3 (safe_int_cast (t3.map (fun r => r.id)) (some other)), other)

/-- Raw product row after `pd.to_numeric` coercion of the numeric columns
(ids integer-valued, `volumen`/`precio` rational). -/
structure ProductoRow where
  id : Option Int
  nombre : Option String
  categoria_id : Option Int
  marca_id : Option Int
  volumen : Option ℚ
  precio : Option ℚ
deriving DecidableEq, Repr

/-- Cleaned product row: ids cast to integers, name normalised.  `precio` stays
a possibly-missing rational: the source never casts it. -/
structure ProductoCleanRow where
  id : Int
  nombre : String
  categoria_id : Int
  marca_id : Int
  volumen : Option ℚ
  precio : Option ℚ
deriving DecidableEq, Repr

/-- First stages of `prepare_producto`: `drop_duplicates()` and the drop of
rows with missing `categoria_id` whose `volumen` (missing read as 0 via
`fillna(0)`) equals 0. -/
def prodBase (producto : List ProductoRow) : List ProductoRow :=
  (dedup producto).filter (fun r => !(r.categoria_id.isNone && (r.volumen.getD 0 = 0)))

/-- `groupby(["categoria_id","volumen"])["precio"].transform("median")` at a
row with the given keys; pandas drops rows with a missing group key, so those
rows get NaN. -/
def grpMedianCatVol (l : List ProductoRow) (ck : Option Int) (vk : Option ℚ) : Option ℚ :=
  match ck, vk with
  | some c, some v =>
    medianQ ((l.filter (fun r => r.categoria_id = some c ∧ r.volumen = some v)).filterMap
      (fun r => r.precio))
  | _, _ => none

/-- Price imputation step a: `fillna` with the (categoria_id, volumen) group median. -/
def precioStepA (l : List ProductoRow) : List ProductoRow :=
  l.map (fun r =>
    { r with precio := match r.precio with
        | some q => some q
        | none => grpMedianCatVol l r.categoria_id r.volumen })

/-- Price imputation step b: `replace(0, nan)`. -/
def precioStepB (l : List ProductoRow) : List ProductoRow :=
  l.map (fun r => { r with precio := if r.precio = some 0 then none else r.precio })

/-- `groupby("volumen")["precio"].transform("median")` at a row with the given key. -/
def grpMedianVol (l : List ProductoRow) (vk : Option ℚ) : Option ℚ :=
  match vk with
  | some v => medianQ ((l.filter (fun r => r.volumen = some v)).filterMap (fun r => r.precio))
  | none => none

/-- Price imputation step c: `fillna` with the volumen group median. -/
def precioStepC (l : List ProductoRow) : List ProductoRow :=
  l.map (fun r =>
    { r with precio := match r.precio with
        | some q => some q
        | none => grpMedianVol l r.volumen })

/-- Price imputation step d: `fillna` with the global median of the column. -/
def precioStepD (l : List ProductoRow) : List ProductoRow :=
  l.map (fun r =>
    { r with precio := match r.precio with
        | some q => some q
        | none => medianQ (l.filterMap (fun s => s.precio)) })

/-- The paired rule: rows with both `marca_id` and `categoria_id` missing get
both sentinel ids at once. -/
def bothNaOther (ob oc : Int) (l : List ProductoRow) : List ProductoRow :=
  l.map (fun r =>
    if r.marca_id.isNone && r.categoria_id.isNone then
      { r with marca_id := some ob, categoria_id := some oc }
    else r)

/-- `group_mode_transform(producto, ["marca_id","volumen"], "categoria_id")` at
a row with the given keys; missing group keys fall outside every group. -/
def grpModeMarcaVol (l : List ProductoRow) (mk : Option Int) (vk : Option ℚ) : Option Int :=
  match mk, vk with
  | some m, some v =>
    first_mode ((l.filter (fun r => r.marca_id = some m ∧ r.volumen = some v)).filterMap
      (fun r => r.categoria_id))
  | _, _ => none

/-- `categoria_id.where(notna, group_mode_transform(...))`. -/
def catModeStep (l : List ProductoRow) : List ProductoRow :=
  l.map (fun r =>
    match r.categoria_id with
    | some c => { r with categoria_id := some c }
    | none => { r with categoria_id := grpModeMarcaVol l r.marca_id r.volumen })

/-- `categoria_id.fillna(other_cat_id)`. -/
def catFillOther (oc : Int) (l : List ProductoRow) : List ProductoRow :=
  l.map (fun r => { r with categoria_id := some (r.categoria_id.getD oc) })

/-- Recombine the row list with the three integer id columns produced by
`safe_int_cast`. -/
def zipIdCols (rows : List ProductoRow) :
    List Int → List Int → List Int → List ProductoCleanRow :=
  fun ids cats marcas =>
    match rows, ids, cats, marcas with
    | r :: rs, i :: is, c :: cs, m :: ms =>
      ⟨i, pyUpper (pyStrip (astypeStr r.nombre)), c, m, r.volumen, r.precio⟩ ::
        zipIdCols rs is cs ms
    | _, _, _, _ => []

/-- Models `prepare_producto`: dedup, drop rule, the four-stage price cascade,
the paired OTHER rule, category mode inference with OTHER fallback, id casts
and name normalisation. -/
def prepare_producto (producto : List ProductoRow) (other_brand_id other_cat_id : Int) :
    List ProductoCleanRow :=
  let p1 := prodBase producto
  let p2 := precioStepA p1
  let p3 := precioStepB p2
  let p4 := precioStepC p3
  let p5 := precioStepD p4
  let p6 := bothNaOther other_brand_id other_cat_id p5
  let p7 := catModeStep p6
  let p8 := catFillOther other_cat_id p7
  zipIdCols p8
    (safe_int_cast (p8.map (fun r => r.id)) none)
    (safe_int_cast (p8.map (fun r => r.categoria_id)) (some other_cat_id))
    (safe_int_cast (p8.map (fun r => r.marca_id)) (some other_brand_id))

/-- Raw customer row.  The identifying columns dropped unconditionally by the
source (`nit`, `puesto`, `correo`, `telefono`) are dropped before anything else
and are modelled by their absence here. -/
structure ClienteRow where
  id : Option Int
  nombre : Option String
  apellido : Option String
  nacimiento : Option String
  genero : Option String
  empresa : Option String
  idioma : Option String
  ciudad : Option String
deriving DecidableEq, Repr

/-- Cleaned customer row.  Every uppercased text column is a plain string
(missing cells surface as "NAN" through `astype(str)`). -/
structure ClienteCleanRow where
  id : Int
  nombre : String
  nacimiento : Option PDate
  edad : Option Int
  genero : String
  empresa : String
  idioma : String
  ciudad : String
deriving DecidableEq, Repr

/-- `drop_duplicates().dropna(how="all")` over the remaining customer columns. -/
def clienteBase (cliente : List ClienteRow) : List ClienteRow :=
  (dedup cliente).filter (fun r =>
    !(r.id.isNone && r.nombre.isNone && r.apellido.isNone && r.nacimiento.isNone &&
      r.genero.isNone && r.empresa.isNone && r.idioma.isNone && r.ciudad.isNone))

/-- `np.floor((today - nacimiento).dt.days / 365.25).astype("Int64")`: age in
whole years from the day difference, missing when the date is missing.  `today`
(a day number) is the value of `pd.Timestamp.today().normalize()`, threaded as
a parameter of the embedding. -/
def edadFromNac (today : Int) (nac : Option PDate) : Option Int :=
  nac.map (fun dt => ⌊(((today - days_from_civil dt : Int) : ℚ) / (36525 / 100 : ℚ))⌋)

/-- Models `prepare_cliente`: column-wise over the deduplicated non-empty rows,
build the full name, cast the id (fill 0), parse the birth date with the given
parser, derive the age, uppercase and remap the categorical columns. -/
def prepare_cliente (cliente : List ClienteRow) (parse_mdY_func : Option String → Option PDate)
    (today : Int) : List ClienteCleanRow :=
  let base := clienteBase cliente
  List.zipWith
    (fun (r : ClienteRow) (i : Int) =>
      let nombreFull :=
        pyStrip (pyStrip (astypeStr (some (r.nombre.getD ""))) ++ " " ++
                 pyStrip (astypeStr (some (r.apellido.getD ""))))
      let nac := parse_mdY_func r.nacimiento
      { id := i
        nombre := pyUpper nombreFull
        nacimiento := nac
        edad := edadFromNac today nac
        genero :=
          (let u := pyUpper (astypeStr r.genero);
           if u = "F" then "FEMALE" else if u = "M" then "MALE" else u)
        empresa := pyUpper (astypeStr r.empresa)
        idioma := pyUpper (astypeStr r.idioma)
        ciudad := pyUpper (astypeStr r.ciudad) })
    base (safe_int_cast (base.map (fun r => r.id)) (some 0))

/-- Raw event row: columns `visitorid`, `itemid`, `event`, `timestamp`,
`transactionid`. -/
structure EventRow where
  visitorid : Option Int
  itemid : Option Int
  event : Option String
  timestamp : Option Int
  transactionid : Option Int
deriving DecidableEq, Repr

/-- Event row after `fecha` is derived and `timestamp` dropped — the table on
which `drop_duplicates()` runs (`transactionid` is still present). -/
structure EventMidRow where
  visitorid : Option Int
  itemid : Option Int
  event : Option String
  transactionid : Option Int
  fecha : Option Int
deriving DecidableEq, Repr

/-- Cleaned event row: no `timestamp`, no `transactionid`, uppercased label. -/
structure EventCleanRow where
  visitorid : Option Int
  itemid : Option Int
  event : String
  fecha : Option Int
deriving DecidableEq, Repr

/-- `pd.to_datetime(timestamp, unit="ms", errors="coerce")`: the timestamp is
kept as its millisecond epoch value; values outside the nanosecond `int64`
range coerce to NaT. -/
def msToFecha (ts : Option Int) : Option Int :=
  ts.bind (fun t =>
    if -(2 ^ 63) < t * 1000000 ∧ t * 1000000 < 2 ^ 63 then some t else none)

/-- Models `prepare_events`: derive `fecha`, drop `timestamp`, drop exact
duplicates (with `transactionid` still present), then drop `transactionid` and
uppercase the event label. -/
def prepare_events (events : List EventRow) : List EventCleanRow :=
  let e1 : List EventMidRow :=
    events.map (fun r => ⟨r.visitorid, r.itemid, r.event, r.transactionid, msToFecha r.timestamp⟩)
  let e2 := dedup e1
  e2.map (fun r => ⟨r.visitorid, r.itemid, pyUpper (astypeStr r.event), r.fecha⟩)

/-- The pandas merge indicator values. -/
inductive MergeInd where
  | both
  | left_only
  | right_only
deriving DecidableEq, Repr

/-- A row of the enriched product table (`enrich_producto_with_marca_categoria`
output): the foreign keys are replaced by the descriptive labels, which are
missing for keys that matched no dimension row. -/
structure ProductoEnriqRow where
  id : Int
  nombre : String
  volumen : Option ℚ
  precio : Option ℚ
  marca : Option String
  categoria : Option String
deriving DecidableEq, Repr

/-- A row of `events1` (Event left-joined to Enriched Product on
`itemid = id`, the duplicated `id` column dropped, the indicator renamed to
the `event+producto` column, here `evprod`). -/
structure Events1Row where
  visitorid : Option Int
  itemid : Option Int
  event : String
  fecha : Option Int
  nombre : Option String
  volumen : Option ℚ
  precio : Option ℚ
  marca : Option String
  categoria : Option String
  evprod : MergeInd
deriving DecidableEq, Repr

/-- A row of `events2` (Event left-joined to Customer on `visitorid = id`,
indicator renamed to the `event+cliente` column, here `evcli`). -/
structure Events2Row where
  visitorid : Option Int
  itemid : Option Int
  event : String
  fecha : Option Int
  nombre : Option String
  nacimiento : Option PDate
  edad : Option Int
  genero : Option String
  empresa : Option String
  idioma : Option String
  ciudad : Option String
  evcli : MergeInd
deriving DecidableEq, Repr

/-- A row of `eventos3`, the outer merge of `events1` with the key columns and
the not-already-present columns of `events2`.  The customer `nombre` column is
excluded by the source (`events1` already has a `nombre` column, from the
product side).  Columns of an absent side are missing. -/
structure Eventos3Row where
  visitorid : Option Int
  itemid : Option Int
  event : Option String
  fecha : Option Int
  nombre : Option String
  volumen : Option ℚ
  precio : Option ℚ
  marca : Option String
  categoria : Option String
  evprod : Option MergeInd
  nacimiento : Option PDate
  edad : Option Int
  genero : Option String
  empresa : Option String
  idioma : Option String
  ciudad : Option String
  evcli : Option MergeInd
deriving DecidableEq, Repr

/-- Left join of events to the enriched product table on `itemid = id` with
merge indicator: one output row per matching right row, in order, or a single
row with missing product columns and a `left_only` indicator. -/
def mkEvents1 (events : List EventCleanRow) (producto_enriq : List ProductoEnriqRow) :
    List Events1Row :=
  events.flatMap (fun e =>
    let ms := producto_enriq.filter (fun p => e.itemid = some p.id)
    if ms.isEmpty then
      [⟨e.visitorid, e.itemid, e.event, e.fecha, none, none, none, none, none,
        MergeInd.left_only⟩]
    else
      ms.map (fun p =>
        ⟨e.visitorid, e.itemid, e.event, e.fecha, some p.nombre, p.volumen, p.precio,
         p.marca, p.categoria, MergeInd.both⟩))

/-- Left join of events to the cleaned customer table on `visitorid = id` with
merge indicator. -/
def mkEvents2 (events : List EventCleanRow) (cliente : List ClienteCleanRow) :
    List Events2Row :=
  events.flatMap (fun e =>
    let ms := cliente.filter (fun c => e.visitorid = some c.id)
    if ms.isEmpty then
      [⟨e.visitorid, e.itemid, e.event, e.fecha, none, none, none, none, none, none,
        none, MergeInd.left_only⟩]
    else
      ms.map (fun c =>
        ⟨e.visitorid, e.itemid, e.event, e.fecha, some c.nombre, c.nacimiento, c.edad,
         some c.genero, some c.empresa, some c.idioma, some c.ciudad, MergeInd.both⟩))

/-- An `eventos3` row combining a left and a matching right row. -/
def combineE3 (a : Events1Row) (b : Events2Row) : Eventos3Row :=
  ⟨a.visitorid, a.itemid, some a.event, a.fecha, a.nombre, a.volumen, a.precio, a.marca,
   a.categoria, some a.evprod, b.nacimiento, b.edad, b.genero, b.empresa, b.idioma,
   b.ciudad, some b.evcli⟩

/-- An `eventos3` row for a left row with no key match. -/
def leftE3 (a : Events1Row) : Eventos3Row :=
  ⟨a.visitorid, a.itemid, some a.event, a.fecha, a.nombre, a.volumen, a.precio, a.marca,
   a.categoria, some a.evprod, none, none, none, none, none, none, none⟩

/-- An `eventos3` row for a right row with no key match. -/
def rightE3 (b : Events2Row) : Eventos3Row :=
  ⟨b.visitorid, b.itemid, none, none, none, none, none, none, none, none, b.nacimiento,
   b.edad, b.genero, b.empresa, b.idioma, b.ciudad, some b.evcli⟩

/-- Outer merge of `events1` and the selected columns of `events2` on
`(visitorid, itemid)` (missing keys match each other, as in pandas merges).
pandas additionally sorts the keys of an outer merge; the model keeps
left-major order, a permutation that does not affect the row-set properties
proved below. -/
def mkEventos3 (events1 : List Events1Row) (events2 : List Events2Row) :
    List Eventos3Row :=
  (events1.flatMap (fun a =>
    let ms := events2.filter (fun b => b.visitorid = a.visitorid ∧ b.itemid = a.itemid)
    if ms.isEmpty then [leftE3 a] else ms.map (combineE3 a)))
  ++ ((events2.filter (fun b =>
        !(events1.any (fun a => b.visitorid = a.visitorid ∧ b.itemid = a.itemid)))).map
      rightE3)

/-- Models `merge_events_with_entities`: returns `(events1, events2, eventos3)`. -/
def merge_events_with_entities (events : List EventCleanRow)
    (producto_enriq : List ProductoEnriqRow) (cliente : List ClienteCleanRow) :
    List Events1Row × List Events2Row × List Eventos3Row :=
  let events1 := mkEvents1 events producto_enriq
  let events2 := mkEvents2 events cliente
  (events1, events2, mkEventos3 events1 events2)

/-! ### Helper lemmas: characters and strings -/

theorem char_toNat_inj {a b : Char} (h : a.toNat = b.toNat) : a = b :=
  Char.eq_of_val_eq (UInt32.toNat.inj h)

theorem charOfNat_toNat {n : Nat} (h : n < 55296) : (Char.ofNat n).toNat = n := by
  rw [Char.ofNat, dif_pos (Or.inl h)]
  rfl

theorem toUpper_toNat (c : Char) :
    c.toUpper.toNat = if 97 ≤ c.toNat ∧ c.toNat ≤ 122 then c.toNat - 32 else c.toNat := by
  rw [Char.toUpper]
  by_cases h : 97 ≤ c.toNat ∧ c.toNat ≤ 122
  · rw [if_pos h, if_pos h, charOfNat_toNat (by omega)]
  · rw [if_neg h, if_neg h]

theorem toUpper_toUpper (c : Char) : c.toUpper.toUpper = c.toUpper := by
  apply char_toNat_inj
  rw [toUpper_toNat, toUpper_toNat c]
  by_cases h : 97 ≤ c.toNat ∧ c.toNat ≤ 122
  · rw [if_pos h, if_neg (by omega)]
  · rw [if_neg h, if_neg h]

theorem isPySpace_iff (c : Char) :
    isPySpace c = true ↔ c.toNat = 32 ∨ c.toNat = 9 ∨ c.toNat = 10 ∨ c.toNat = 13 ∨
      c.toNat = 11 ∨ c.toNat = 12 := by
  constructor
  · intro h
    simp only [isPySpace, Bool.or_eq_true, decide_eq_true_eq] at h
    rcases h with ((((h | h) | h) | h) | h) | h <;> subst h <;> simp
  · intro h
    simp only [isPySpace, Bool.or_eq_true, decide_eq_true_eq]
    rcases h with h | h | h | h | h | h
    · exact Or.inl (Or.inl (Or.inl (Or.inl (Or.inl (char_toNat_inj h)))))
    · exact Or.inl (Or.inl (Or.inl (Or.inl (Or.inr (char_toNat_inj h)))))
    · exact Or.inl (Or.inl (Or.inl (Or.inr (char_toNat_inj h))))
    · exact Or.inl (Or.inl (Or.inr (char_toNat_inj h)))
    · exact Or.inl (Or.inr (char_toNat_inj h))
    · exact Or.inr (char_toNat_inj h)

theorem isPySpace_toUpper (c : Char) : isPySpace c.toUpper = isPySpace c := by
  by_cases h : 97 ≤ c.toNat ∧ c.toNat ≤ 122
  · have h1 : c.toUpper.toNat = c.toNat - 32 := by rw [toUpper_toNat, if_pos h]
    have h2 : isPySpace c.toUpper = false := by
      by_contra hc
      have := (isPySpace_iff c.toUpper).mp (by revert hc; cases isPySpace c.toUpper <;> simp)
      omega
    have h3 : isPySpace c = false := by
      by_contra hc
      have := (isPySpace_iff c).mp (by revert hc; cases isPySpace c <;> simp)
      omega
    rw [h2, h3]
  · have : c.toUpper = c := by
      apply char_toNat_inj
      rw [toUpper_toNat, if_neg h]
    rw [this]

theorem dropWhile_isPySpace_idem (l : List Char) :
    (l.dropWhile isPySpace).dropWhile isPySpace = l.dropWhile isPySpace := by
  induction l with
  | nil => rfl
  | cons a l ih =>
    by_cases h : isPySpace a
    · simp [List.dropWhile_cons, h, ih]
    · simp [List.dropWhile_cons, h]

theorem dropWhile_eq_self_of_head (p : Char → Bool) (l : List Char)
    (h : ∀ c, l.head? = some c → p c = false) : l.dropWhile p = l := by
  cases l with
  | nil => rfl
  | cons a l => simp [List.dropWhile_cons, h a rfl]

theorem rstripPy_prefix (m : List Char) : (m.reverse.dropWhile isPySpace).reverse <+: m := by
  have h := List.reverse_prefix.mpr (List.dropWhile_suffix (l := m.reverse) isPySpace)
  simpa using h

theorem head?_of_prefix {l m : List Char} (h : l <+: m) (hne : l ≠ []) :
    l.head? = m.head? := by
  obtain ⟨t, rfl⟩ := h
  cases l with
  | nil => exact absurd rfl hne
  | cons a l => rfl

theorem stripChars_idem (l : List Char) : stripChars (stripChars l) = stripChars l := by
  unfold stripChars
  set m := l.dropWhile isPySpace with hm
  set r := (m.reverse.dropWhile isPySpace).reverse with hr
  have hdrop : r.dropWhile isPySpace = r := by
    apply dropWhile_eq_self_of_head
    intro c hc
    have hrne : r ≠ [] := by intro h0; rw [h0] at hc; exact Option.noConfusion hc
    have hpre : r <+: m := rstripPy_prefix m
    have hhead : r.head? = m.head? := head?_of_prefix hpre hrne
    have := List.head?_dropWhile_not isPySpace l
    rw [← hm] at this
    rw [hhead] at hc
    rw [hc] at this
    exact this
  rw [hdrop, List.reverse_reverse, dropWhile_isPySpace_idem]

theorem stripChars_map_toUpper (l : List Char) :
    stripChars (l.map Char.toUpper) = (stripChars l).map Char.toUpper := by
  have hp : (isPySpace ∘ Char.toUpper) = isPySpace := by
    funext c
    exact isPySpace_toUpper c
  unfold stripChars
  rw [List.dropWhile_map, hp, ← List.map_reverse, List.dropWhile_map, hp, ← List.map_reverse]

theorem pyStrip_pyUpper (s : String) : pyStrip (pyUpper s) = pyUpper (pyStrip s) := by
  simp only [pyStrip, pyUpper]
  exact congrArg String.mk (stripChars_map_toUpper s.data)

theorem pyStrip_idem (s : String) : pyStrip (pyStrip s) = pyStrip s := by
  simp only [pyStrip]
  exact congrArg String.mk (stripChars_idem s.data)

theorem pyUpper_idem (s : String) : pyUpper (pyUpper s) = pyUpper s := by
  simp only [pyUpper]
  apply congrArg String.mk
  rw [List.map_map]
  apply List.map_congr_left
  intro c _
  exact toUpper_toUpper c

theorem normLabel_idem (o : Option String) :
    normLabel (some (normLabel o)) = normLabel o := by
  show pyUpper (pyStrip (pyUpper (pyStrip (astypeStr o)))) = pyUpper (pyStrip (astypeStr o))
  rw [pyStrip_pyUpper, pyStrip_idem, pyUpper_idem]

/-! ### Helper lemmas: dedup, max, median, mode, casts -/

theorem dedupAux_sublist {α : Type} [DecidableEq α] (seen : List α) (l : List α) :
    List.Sublist (dedupAux seen l) l := by
  induction l generalizing seen with
  | nil => exact List.Sublist.refl []
  | cons x xs ih =>
    rw [dedupAux]
    by_cases h : x ∈ seen
    · rw [if_pos h]
      exact (ih seen).cons x
    · rw [if_neg h]
      exact (ih (x :: seen)).cons₂ x

theorem dedup_sublist {α : Type} [DecidableEq α] (l : List α) : List.Sublist (dedup l) l :=
  dedupAux_sublist [] l

theorem mem_of_mem_dedup {α : Type} [DecidableEq α] {l : List α} {a : α}
    (h : a ∈ dedup l) : a ∈ l :=
  (dedup_sublist l).subset h

theorem dedupAux_nodup {α : Type} [DecidableEq α] (seen : List α) (l : List α) :
    (dedupAux seen l).Nodup ∧ ∀ a ∈ dedupAux seen l, a ∉ seen := by
  induction l generalizing seen with
  | nil => exact ⟨List.nodup_nil, by intro a h; cases h⟩
  | cons x xs ih =>
    rw [dedupAux]
    by_cases h : x ∈ seen
    · rw [if_pos h]
      exact ih seen
    · rw [if_neg h]
      obtain ⟨hnd, hni⟩ := ih (x :: seen)
      refine ⟨List.nodup_cons.mpr ⟨?_, hnd⟩, ?_⟩
      · intro hx
        exact (hni x hx) (List.mem_cons_self x seen)
      · intro a ha
        rcases List.mem_cons.mp ha with rfl | ha
        · exact h
        · intro hsa
          exact (hni a ha) (List.mem_cons_of_mem x hsa)

theorem dedup_nodup {α : Type} [DecidableEq α] (l : List α) : (dedup l).Nodup :=
  (dedupAux_nodup [] l).1

theorem dedupAux_eq_self {α : Type} [DecidableEq α] (seen : List α) (l : List α)
    (hnd : l.Nodup) (hdisj : ∀ a ∈ l, a ∉ seen) : dedupAux seen l = l := by
  induction l generalizing seen with
  | nil => rfl
  | cons x xs ih =>
    rw [dedupAux, if_neg (hdisj x (List.mem_cons_self x xs))]
    have hnd' := List.nodup_cons.mp hnd
    congr 1
    apply ih (x :: seen) hnd'.2
    intro a ha hmem
    rcases List.mem_cons.mp hmem with rfl | hmem
    · exact hnd'.1 ha
    · exact hdisj a (List.mem_cons_of_mem x ha) hmem

theorem dedup_eq_self {α : Type} [DecidableEq α] (l : List α) (hnd : l.Nodup) :
    dedup l = l :=
  dedupAux_eq_self [] l hnd (by intro a _ h; cases h)

theorem maxId_le_of_mem {l : List Int} {x : Int} (hx : x ∈ l) :
    ∃ m, maxId l = some m ∧ x ≤ m := by
  induction l with
  | nil => cases hx
  | cons a l ih =>
    rcases List.mem_cons.mp hx with rfl | hx
    · cases hml : maxId l with
      | none => exact ⟨x, by rw [maxId, hml], le_refl x⟩
      | some m => exact ⟨max x m, by rw [maxId, hml], le_max_left x m⟩
    · obtain ⟨m, hm, hle⟩ := ih hx
      exact ⟨max a m, by rw [maxId, hm], le_trans hle (le_max_right a m)⟩

theorem zipWith_map_self {α β γ : Type} (l : List α) (f : α → β) (g : α → β → γ) :
    List.zipWith g l (l.map f) = l.map (fun a => g a (f a)) := by
  induction l with
  | nil => rfl
  | cons a l ih => simp [ih]

theorem safe_int_cast_eq_map (series : List (Option Int)) (fv : Option Int) :
    safe_int_cast series fv = series.map (fun o => (fillnaOpt fv o).getD 0) := by
  simp only [safe_int_cast, ite_self, List.map_map]
  rfl

theorem zipIdCols_map (l : List ProductoRow) (f g h : ProductoRow → Int) :
    zipIdCols l (l.map f) (l.map g) (l.map h) =
      l.map (fun r =>
        ⟨f r, pyUpper (pyStrip (astypeStr r.nombre)), g r, h r, r.volumen, r.precio⟩) := by
  induction l with
  | nil => rfl
  | cons a l ih => simp [zipIdCols, ih]

theorem medianQ_isSome {l : List ℚ} (h : l ≠ []) : ∃ m, medianQ l = some m := by
  unfold medianQ
  set s := List.insertionSort (fun a b => a ≤ b) l with hs
  have hlen : s.length = l.length := List.length_insertionSort _ l
  have hpos : 0 < s.length := by
    rw [hlen]
    exact List.length_pos.mpr h
  rw [if_neg (by omega)]
  by_cases hodd : s.length % 2 = 1
  · rw [if_pos hodd]
    have hlt : s.length / 2 < s.length := Nat.div_lt_self hpos (by omega)
    cases hg : s.get? (s.length / 2) with
    | none => exact absurd (List.get?_eq_none.mp hg) (by omega)
    | some a => exact ⟨a, rfl⟩
  · rw [if_neg hodd]
    have hlt1 : s.length / 2 - 1 < s.length := by
      have := Nat.div_lt_self hpos (show 1 < 2 by omega)
      omega
    have hlt2 : s.length / 2 < s.length := Nat.div_lt_self hpos (by omega)
    cases hg1 : s.get? (s.length / 2 - 1) with
    | none => exact absurd (List.get?_eq_none.mp hg1) (by omega)
    | some a =>
      cases hg2 : s.get? (s.length / 2) with
      | none => exact absurd (List.get?_eq_none.mp hg2) (by omega)
      | some b => exact ⟨(a + b) / 2, rfl⟩

theorem medianQ_mem_bound {c : ℚ} {l : List ℚ} {m : ℚ} (hb : ∀ x ∈ l, c < x)
    (hm : medianQ l = some m) : c < m := by
  unfold medianQ at hm
  set s := List.insertionSort (fun a b => a ≤ b) l with hs
  have hmem : ∀ x ∈ s, c < x := by
    intro x hx
    exact hb x ((List.mem_insertionSort _).mp hx)
  by_cases h0 : s.length = 0
  · rw [if_pos h0] at hm
    exact Option.noConfusion hm
  rw [if_neg h0] at hm
  by_cases hodd : s.length % 2 = 1
  · rw [if_pos hodd] at hm
    exact hmem m (List.get?_mem hm)
  · rw [if_neg hodd] at hm
    cases hg1 : s.get? (s.length / 2 - 1) with
    | none => rw [hg1] at hm; exact Option.noConfusion hm
    | some a =>
      cases hg2 : s.get? (s.length / 2) with
      | none => rw [hg1, hg2] at hm; exact Option.noConfusion hm
      | some b =>
        rw [hg1, hg2] at hm
        have ha : c < a := hmem a (List.get?_mem hg1)
        have hbb : c < b := hmem b (List.get?_mem hg2)
        have : m = (a + b) / 2 := (Option.some.inj hm).symm
        rw [this]
        linarith

theorem pickMode_mem {l : List Int} {v : Int} :
    ∀ (cs : List Int) (acc : Option Int), (∀ b, acc = some b → b ∈ l) →
      (∀ c ∈ cs, c ∈ l) → pickMode l cs acc = some v → v ∈ l := by
  intro cs
  induction cs with
  | nil =>
    intro acc hacc _ h
    exact hacc v h
  | cons c cs ih =>
    intro acc hacc hcs h
    simp only [pickMode] at h
    apply ih _ _ (fun d hd => hcs d (List.mem_cons_of_mem c hd)) h
    intro b hb
    cases acc with
    | none =>
      simp only at hb
      rw [← Option.some.inj hb]
      exact hcs c (List.mem_cons_self c cs)
    | some a =>
      simp only at hb
      by_cases hcond : l.count c > l.count a ∨ (l.count c = l.count a ∧ c < a)
      · rw [if_pos hcond] at hb
        rw [← Option.some.inj hb]
        exact hcs c (List.mem_cons_self c cs)
      · rw [if_neg hcond] at hb
        rw [← Option.some.inj hb]
        exact hacc a rfl

theorem first_mode_mem {l : List Int} {v : Int} (h : first_mode l = some v) : v ∈ l :=
  pickMode_mem (dedup l) none (by intro b hb; exact Option.noConfusion hb)
    (fun c hc => mem_of_mem_dedup hc) h

/-! ### Claim theorems -/

/-- C5: safe_int_cast returns a column with no missing entries; when a fill
value is supplied every originally-missing entry becomes that fill value (the
0-fallback never touches them), and the two concrete examples of the spec
hold: `[1, None, 3]` with fill 0 gives `[1, 0, 3]` and `[None, None]` with no
fill gives `[0, 0]`.  (The result type `List Int` carries no missing values by
construction.) -/
theorem C5_safe_int_cast_fill :
    (∀ (s : List (Option Int)) (v : Int) (i : Nat), s[i]? = some none →
      (safe_int_cast s (some v))[i]? = some v)
    ∧ safe_int_cast [some 1, none, some 3] (some 0) = [1, 0, 3]
    ∧ safe_int_cast [none, none] none = [0, 0] := by
  refine ⟨?_, by decide, by decide⟩
  intro s v i h
  rw [safe_int_cast_eq_map, List.getElem?_map, h]
  rfl

/-- C5 witness: the fill property applied at the concrete series `[1, None]`
with fill value 7 at index 1. -/
theorem C5_witness : (safe_int_cast [some 1, none] (some 7))[1]? = some 7 :=
  C5_safe_int_cast_fill.1 [some 1, none] 7 1 rfl

/-- C6: parse_mdY returns a date only for scalars whose trimmed text wholly
matches `\d{1,2}/\d{1,2}/\d{2,4}` (a missing scalar gives no date); a
two-digit year y resolves to 2000+y when y < pivot and to 1900+y otherwise
(larger years pass through); every returned date is a real calendar date
accepted by the timestamp constructor; and with pivot 30, "1/2/29" gives year
2029, "1/2/30" gives year 1930, while "13/40/2020" and "not a date" give no
date. -/
theorem C6_parse_mdY_contract :
    (∀ p : Int, parse_mdY none p = none)
    ∧ (∀ (s : String) (p : Int) (dt : PDate), parse_mdY (some s) p = some dt →
        (scanMDY s).isSome = true)
    ∧ (∀ (s : String) (p : Int) (dt : PDate), parse_mdY (some s) p = some dt →
        tsValid dt.year dt.month dt.day = true)
    ∧ (∀ (s : String) (p : Int) (dt : PDate), parse_mdY (some s) p = some dt →
        ∃ yy : Nat, scanMDY s = some (dt.month, dt.day, yy) ∧
          ((100 ≤ (yy : Int) ∧ dt.year = (yy : Int)) ∨
           ((yy : Int) < 100 ∧ (yy : Int) < p ∧ dt.year = 2000 + (yy : Int)) ∨
           ((yy : Int) < 100 ∧ p ≤ (yy : Int) ∧ dt.year = 1900 + (yy : Int))))
    ∧ parse_mdY (some "1/2/29") 30 = some ⟨2029, 1, 2⟩
    ∧ parse_mdY (some "1/2/30") 30 = some ⟨1930, 1, 2⟩
    ∧ parse_mdY (some "13/40/2020") 30 = none
    ∧ parse_mdY (some "not a date") 30 = none := by
  refine ⟨fun p => rfl, ?_, ?_, ?_, by decide, by decide, by decide, by decide⟩
  · intro s p dt h
    cases hscan : scanMDY s with
    | none =>
      simp only [parse_mdY, hscan] at h
      exact Option.noConfusion h
    | some t => rfl
  · intro s p dt h
    cases hscan : scanMDY s with
    | none =>
      simp only [parse_mdY, hscan] at h
      exact Option.noConfusion h
    | some t =>
      obtain ⟨mm, dd, yy⟩ := t
      simp only [parse_mdY, hscan] at h
      by_cases hv : tsValid (if (yy : Int) < 100 then
          (if (yy : Int) < p then 2000 + (yy : Int) else 1900 + (yy : Int))
        else (yy : Int)) mm dd
      · rw [if_pos hv] at h
        have he := Option.some.inj h
        subst he
        exact hv
      · rw [if_neg hv] at h
        exact Option.noConfusion h
  · intro s p dt h
    cases hscan : scanMDY s with
    | none =>
      simp only [parse_mdY, hscan] at h
      exact Option.noConfusion h
    | some t =>
      obtain ⟨mm, dd, yy⟩ := t
      simp only [parse_mdY, hscan] at h
      by_cases hv : tsValid (if (yy : Int) < 100 then
          (if (yy : Int) < p then 2000 + (yy : Int) else 1900 + (yy : Int))
        else (yy : Int)) mm dd
      · rw [if_pos hv] at h
        have he := Option.some.inj h
        subst he
        refine ⟨yy, rfl, ?_⟩
        by_cases h100 : (yy : Int) < 100
        · by_cases hp : (yy : Int) < p
          · exact Or.inr (Or.inl ⟨h100, hp, by simp only [if_pos h100, if_pos hp]⟩)
          · exact Or.inr (Or.inr ⟨h100, le_of_not_lt hp,
              by simp only [if_pos h100, if_neg hp]⟩)
        · exact Or.inl ⟨le_of_not_lt h100, by simp only [if_neg h100]⟩
      · rw [if_neg hv] at h
        exact Option.noConfusion h

/-- C6 witness: the regular-expression and calendar-validity consequences
applied at the concrete input "1/2/29" with pivot 30. -/
theorem C6_witness :
    (scanMDY "1/2/29").isSome = true ∧ tsValid 2029 1 2 = true :=
  ⟨C6_parse_mdY_contract.2.1 "1/2/29" 30 ⟨2029, 1, 2⟩ (by decide),
   C6_parse_mdY_contract.2.2.1 "1/2/29" 30 ⟨2029, 1, 2⟩ (by decide)⟩

theorem dedup_pair {α : Type} [DecidableEq α] {a b : α} (h : b ≠ a) :
    dedup [a, b] = [a, b] := by
  simp [dedup, dedupAux, h]

/-- C2 (amended): prepare_events drops the epoch `timestamp` column before
duplicate removal but drops `transactionid` only afterwards; neither column
appears in the output (the output row type has no such fields), and two raw
event rows identical in every column except `transactionid` therefore survive
deduplication and yield two identical output rows, not one. -/
theorem C2_transactionid_after_dedup :
    ∀ r1 r2 : EventRow, r1.visitorid = r2.visitorid → r1.itemid = r2.itemid →
      r1.event = r2.event → r1.timestamp = r2.timestamp →
      r1.transactionid ≠ r2.transactionid →
      ∃ o : EventCleanRow, prepare_events [r1, r2] = [o, o] := by
  intro r1 r2 hv hi he ht htr
  have hne : (⟨r2.visitorid, r2.itemid, r2.event, r2.transactionid,
      msToFecha r2.timestamp⟩ : EventMidRow) ≠
      ⟨r1.visitorid, r1.itemid, r1.event, r1.transactionid, msToFecha r1.timestamp⟩ := by
    intro hEq
    exact htr (congrArg EventMidRow.transactionid hEq).symm
  refine ⟨⟨r1.visitorid, r1.itemid, pyUpper (astypeStr r1.event), msToFecha r1.timestamp⟩, ?_⟩
  have hrow : (⟨r2.visitorid, r2.itemid, pyUpper (astypeStr r2.event),
      msToFecha r2.timestamp⟩ : EventCleanRow) =
      ⟨r1.visitorid, r1.itemid, pyUpper (astypeStr r1.event), msToFecha r1.timestamp⟩ := by
    rw [hv, hi, he, ht]
  simp only [prepare_events, List.map_cons, List.map_nil]
  rw [dedup_pair hne, List.map_cons, List.map_cons, List.map_nil, hrow]

/-- C2 counterexample: two raw event rows identical except for `transactionid`
do not collapse to a single output row — the output has two rows, refuting the
claimed drop-before-dedup ordering for the transaction-identifier column. -/
theorem C2_counterexample :
    ¬ ((prepare_events [⟨some 1, some 2, some "view", some 1000, some 5⟩,
        ⟨some 1, some 2, some "view", some 1000, some 6⟩]).length = 1) := by
  decide

/-- C2 witness: the amended statement applied at two concrete rows differing
only in `transactionid`. -/
theorem C2_witness :
    ∃ o : EventCleanRow,
      prepare_events [⟨some 1, some 2, some "view", some 1000, some 5⟩,
        ⟨some 1, some 2, some "view", some 1000, some 6⟩] = [o, o] :=
  C2_transactionid_after_dedup _ _ rfl rfl rfl rfl (by decide)

theorem mkEvents1_unmatched {events : List EventCleanRow}
    {producto : List ProductoEnriqRow} {r : Events1Row}
    (hr : r ∈ mkEvents1 events producto)
    (hno : ∀ p ∈ producto, ¬ r.itemid = some p.id) :
    r.evprod = MergeInd.left_only ∧ r.nombre = none ∧ r.volumen = none ∧
      r.precio = none ∧ r.marca = none ∧ r.categoria = none := by
  rw [mkEvents1] at hr
  obtain ⟨e, he, hmem⟩ := List.mem_flatMap.mp hr
  by_cases hempty : (producto.filter (fun p => e.itemid = some p.id)).isEmpty = true
  · rw [if_pos hempty] at hmem
    rcases List.mem_singleton.mp hmem with rfl
    exact ⟨rfl, rfl, rfl, rfl, rfl, rfl⟩
  · rw [if_neg hempty] at hmem
    obtain ⟨p, hp, rfl⟩ := List.mem_map.mp hmem
    have hpmem := List.mem_of_mem_filter hp
    have hkey := List.of_mem_filter hp
    exact absurd (of_decide_eq_true hkey) (hno p hpmem)

/-- C8: an event row whose itemid matches no enriched-product id gets the
left_only provenance value in the `event+producto` column of events1 with all
product-derived columns missing, and every row of the unified fact view
eventos3 whose itemid matches no enriched-product id likewise has all
product-derived columns missing (and no `both` provenance). -/
theorem C8_join_provenance :
    ∀ (events : List EventCleanRow) (producto_enriq : List ProductoEnriqRow)
      (cliente : List ClienteCleanRow),
      (∀ r ∈ (merge_events_with_entities events producto_enriq cliente).1,
        (∀ p ∈ producto_enriq, ¬ r.itemid = some p.id) →
          r.evprod = MergeInd.left_only ∧ r.nombre = none ∧ r.volumen = none ∧
          r.precio = none ∧ r.marca = none ∧ r.categoria = none)
      ∧ (∀ r ∈ (merge_events_with_entities events producto_enriq cliente).2.2,
          (∀ p ∈ producto_enriq, ¬ r.itemid = some p.id) →
            r.nombre = none ∧ r.volumen = none ∧ r.precio = none ∧ r.marca = none ∧
            r.categoria = none ∧ r.evprod ≠ some MergeInd.both) := by
  intro events producto cliente
  constructor
  · intro r hr hno
    exact mkEvents1_unmatched hr hno
  · intro r hr hno
    have hr' : r ∈ mkEventos3 (mkEvents1 events producto) (mkEvents2 events cliente) := hr
    rw [mkEventos3] at hr'
    rcases List.mem_append.mp hr' with hL | hR
    · obtain ⟨a, ha, hmem⟩ := List.mem_flatMap.mp hL
      by_cases hempty : ((mkEvents2 events cliente).filter
          (fun b => b.visitorid = a.visitorid ∧ b.itemid = a.itemid)).isEmpty = true
      · rw [if_pos hempty] at hmem
        rcases List.mem_singleton.mp hmem with rfl
        obtain ⟨hprov, h1, h2, h3, h4, h5⟩ := mkEvents1_unmatched ha hno
        refine ⟨h1, h2, h3, h4, h5, ?_⟩
        show some a.evprod ≠ some MergeInd.both
        rw [hprov]
        intro hc
        exact MergeInd.noConfusion (Option.some.inj hc)
      · rw [if_neg hempty] at hmem
        obtain ⟨b, hb, rfl⟩ := List.mem_map.mp hmem
        obtain ⟨hprov, h1, h2, h3, h4, h5⟩ := mkEvents1_unmatched ha hno
        refine ⟨h1, h2, h3, h4, h5, ?_⟩
        show some a.evprod ≠ some MergeInd.both
        rw [hprov]
        intro hc
        exact MergeInd.noConfusion (Option.some.inj hc)
    · obtain ⟨b, hb, rfl⟩ := List.mem_map.mp hR
      exact ⟨rfl, rfl, rfl, rfl, rfl, by intro hc; exact Option.noConfusion hc⟩

/-- C8 witness: the events1 part applied to a single event over an empty
product table — its join row carries left_only provenance and only missing
product columns. -/
theorem C8_witness :
    (⟨some 1, some 2, "VIEW", none, none, none, none, none, none,
      MergeInd.left_only⟩ : Events1Row).evprod = MergeInd.left_only ∧
    (⟨some 1, some 2, "VIEW", none, none, none, none, none, none,
      MergeInd.left_only⟩ : Events1Row).nombre = none ∧
    (⟨some 1, some 2, "VIEW", none, none, none, none, none, none,
      MergeInd.left_only⟩ : Events1Row).volumen = none ∧
    (⟨some 1, some 2, "VIEW", none, none, none, none, none, none,
      MergeInd.left_only⟩ : Events1Row).precio = none ∧
    (⟨some 1, some 2, "VIEW", none, none, none, none, none, none,
      MergeInd.left_only⟩ : Events1Row).marca = none ∧
    (⟨some 1, some 2, "VIEW", none, none, none, none, none, none,
      MergeInd.left_only⟩ : Events1Row).categoria = none :=
  (C8_join_provenance [⟨some 1, some 2, "VIEW", none⟩] [] []).1 _ (by decide)
    (by intro p hp; exact absurd hp (List.not_mem_nil p))

theorem prepare_cliente_mem {cliente : List ClienteRow}
    {parse : Option String → Option PDate} {today : Int} {r : ClienteCleanRow}
    (hr : r ∈ prepare_cliente cliente parse today) :
    ∃ r0 ∈ clienteBase cliente,
      r = ⟨(fillnaOpt (some 0) r0.id).getD 0,
           pyUpper (pyStrip (pyStrip (astypeStr (some (r0.nombre.getD ""))) ++ " " ++
             pyStrip (astypeStr (some (r0.apellido.getD ""))))),
           parse r0.nacimiento,
           edadFromNac today (parse r0.nacimiento),
           (let u := pyUpper (astypeStr r0.genero);
            if u = "F" then "FEMALE" else if u = "M" then "MALE" else u),
           pyUpper (astypeStr r0.empresa),
           pyUpper (astypeStr r0.idioma),
           pyUpper (astypeStr r0.ciudad)⟩ := by
  simp only [prepare_cliente] at hr
  rw [safe_int_cast_eq_map, List.map_map, zipWith_map_self] at hr
  obtain ⟨r0, h0, heq⟩ := List.mem_map.mp hr
  exact ⟨r0, h0, heq.symm⟩

/-- C9: in every prepare_cliente output row, edad is missing exactly when
nacimiento is missing, and when nacimiento parsed to a date the age is the
floor of the day difference to today divided by 365.25. -/
theorem C9_edad_derivation :
    ∀ (cliente : List ClienteRow) (parse : Option String → Option PDate) (today : Int),
      ∀ r ∈ prepare_cliente cliente parse today,
        (r.edad = none ↔ r.nacimiento = none) ∧
        (∀ dt : PDate, r.nacimiento = some dt →
          r.edad = some ⌊(((today - days_from_civil dt : Int) : ℚ) / (36525 / 100 : ℚ))⌋) := by
  intro cliente parse today r hr
  obtain ⟨r0, _, heq⟩ := prepare_cliente_mem hr
  subst heq
  cases hn : parse r0.nacimiento with
  | none =>
    constructor
    · simp [edadFromNac, hn]
    · intro dt hdt
      simp only [hn] at hdt
      exact Option.noConfusion hdt
  | some dt0 =>
    constructor
    · simp [edadFromNac, hn]
    · intro dt hdt
      simp only [hn] at hdt
      have : dt0 = dt := Option.some.inj hdt
      subst this
      simp [edadFromNac, hn]

/-- C9 witness: applied to a concrete customer whose date of birth "1/2/29"
parses (pivot 30) to 2029-01-02, with today = day 22000 of the epoch. -/
theorem C9_witness :
    (⟨1, "ANA LOPEZ", some ⟨2029, 1, 2⟩, edadFromNac 22000 (some ⟨2029, 1, 2⟩),
        "NAN", "NAN", "NAN", "NAN"⟩ : ClienteCleanRow).edad =
      some ⌊(((22000 - days_from_civil ⟨2029, 1, 2⟩ : Int) : ℚ) / (36525 / 100 : ℚ))⌋ :=
  (C9_edad_derivation
    [⟨some 1, some "Ana", some "Lopez", some "1/2/29", none, none, none, none⟩]
    (fun o => parse_mdY o 30) 22000
    ⟨1, "ANA LOPEZ", some ⟨2029, 1, 2⟩, edadFromNac 22000 (some ⟨2029, 1, 2⟩),
      "NAN", "NAN", "NAN", "NAN"⟩
    (List.mem_singleton.mpr rfl)).2 ⟨2029, 1, 2⟩ rfl

/-- C10: the genero column of prepare_cliente output is never missing (its type
is a plain string): every value is the uppercased string form of the input
column over the deduplicated non-empty rows, a missing input surfaces as the
literal "NAN" through astype(str), and only the exact uppercased values "F"
and "M" are remapped (so neither literal survives in the output); the concrete
column [None, "f", "m", "x", " f "] comes out as
["NAN", "FEMALE", "MALE", "X", " F "]. -/
theorem C10_genero_normalisation :
    ∀ (cliente : List ClienteRow) (parse : Option String → Option PDate) (today : Int),
      ((prepare_cliente cliente parse today).map (fun r => r.genero) =
        (clienteBase cliente).map (fun r =>
          (let u := pyUpper (astypeStr r.genero);
           if u = "F" then "FEMALE" else if u = "M" then "MALE" else u)))
      ∧ (∀ r ∈ prepare_cliente cliente parse today, r.genero ≠ "F" ∧ r.genero ≠ "M")
      ∧ (prepare_cliente
          [⟨some 1, none, none, none, none, none, none, none⟩,
           ⟨some 2, none, none, none, some "f", none, none, none⟩,
           ⟨some 3, none, none, none, some "m", none, none, none⟩,
           ⟨some 4, none, none, none, some "x", none, none, none⟩,
           ⟨some 5, none, none, none, some " f ", none, none, none⟩] parse today).map
          (fun r => r.genero) = ["NAN", "FEMALE", "MALE", "X", " F "] := by
  intro cliente parse today
  refine ⟨?_, ?_, ?_⟩
  · simp only [prepare_cliente]
    rw [safe_int_cast_eq_map, List.map_map, zipWith_map_self, List.map_map]
    rfl
  · intro r hr
    obtain ⟨r0, _, heq⟩ := prepare_cliente_mem hr
    subst heq
    show (let u := pyUpper (astypeStr r0.genero);
      if u = "F" then "FEMALE" else if u = "M" then "MALE" else u) ≠ "F" ∧
      (let u := pyUpper (astypeStr r0.genero);
       if u = "F" then "FEMALE" else if u = "M" then "MALE" else u) ≠ "M"
    by_cases hF : pyUpper (astypeStr r0.genero) = "F"
    · simp only [hF, if_pos rfl]
      exact ⟨by decide, by decide⟩
    · by_cases hM : pyUpper (astypeStr r0.genero) = "M"
      · simp only [hM, if_neg (by decide : ("M" : String) ≠ "F"), if_pos rfl]
        exact ⟨by decide, by decide⟩
      · simp only [if_neg hF, if_neg hM]
        exact ⟨hF, hM⟩
  · simp only [prepare_cliente]
    rw [safe_int_cast_eq_map, List.map_map, zipWith_map_self, List.map_map]
    rfl

/-- C10 witness: the no-literal-F-or-M consequence at the single concrete row
with missing genero. -/
theorem C10_witness :
    (⟨1, "", none, edadFromNac 0 none, "NAN", "NAN", "NAN", "NAN"⟩ :
      ClienteCleanRow).genero ≠ "F" ∧
    (⟨1, "", none, edadFromNac 0 none, "NAN", "NAN", "NAN", "NAN"⟩ :
      ClienteCleanRow).genero ≠ "M" :=
  (C10_genero_normalisation [⟨some 1, none, none, none, none, none, none, none⟩]
    (fun _ => none) 0).2.1
    ⟨1, "", none, edadFromNac 0 none, "NAN", "NAN", "NAN", "NAN"⟩
    (List.mem_singleton.mpr rfl)

/-- C4: for the two-row product table (categoria_id missing, marca_id missing,
volumen 5, precio 0) and (categoria_id 7, marca_id missing, volumen 5,
precio 10), prepare_producto prices the first row at 10 — the zero is reopened
as missing and filled from the volumen-5 group median — and assigns it both
sentinel ids through the paired both-missing rule, so the mode-based
categoria_id inference never touches it (its final categoria_id is the
sentinel, not a mode value); this holds for every pair of sentinel ids. -/
theorem C4_scenario_cascade :
    ∀ ob oc : Int,
      prepare_producto
        [⟨some 1, some "A", none, none, some 5, some 0⟩,
         ⟨some 2, some "B", some 7, none, some 5, some 10⟩] ob oc =
      [⟨1, "A", oc, ob, some 5, some 10⟩, ⟨2, "B", 7, ob, some 5, some 10⟩] := by
  intro ob oc
  rfl

theorem mem_unique_of_length_le_one {α : Type} {l : List α} (h : l.length ≤ 1)
    {a b : α} (ha : a ∈ l) (hb : b ∈ l) : a = b := by
  cases l with
  | nil => cases ha
  | cons x xs =>
    cases xs with
    | nil =>
      rw [List.mem_singleton.mp ha, List.mem_singleton.mp hb]
    | cons y ys => simp at h

theorem catCast_eq (l : List CategoriaNRow) (k : Int) :
    List.zipWith (fun (r : CategoriaNRow) (i : Int) => (⟨i, r.categoria⟩ : CategoriaCleanRow))
      l (safe_int_cast (l.map (fun r => r.id)) (some k)) =
      l.map (fun r => ⟨r.id.getD k, r.categoria⟩) := by
  rw [safe_int_cast_eq_map, List.map_map, zipWith_map_self]
  rfl

theorem marcaCast_eq (l : List MarcaNRow) (k : Int) :
    List.zipWith (fun (r : MarcaNRow) (i : Int) => (⟨i, r.marca⟩ : MarcaCleanRow))
      l (safe_int_cast (l.map (fun r => r.id)) (some k)) =
      l.map (fun r => ⟨r.id.getD k, r.marca⟩) := by
  rw [safe_int_cast_eq_map, List.map_map, zipWith_map_self]
  rfl

theorem catBase_mem {t : List CategoriaRow} {r : CategoriaNRow} (hr : r ∈ catBase t) :
    ∃ r0 ∈ t, r = ⟨r0.id, normLabel r0.categoria⟩ := by
  have hr1 := mem_of_mem_dedup hr
  have hr0 := List.mem_of_mem_filter hr1
  obtain ⟨r0, h0, heq⟩ := List.mem_map.mp hr0
  exact ⟨r0, h0, heq.symm⟩

theorem catBase_countP_le (t : List CategoriaRow) :
    List.countP (fun r => r.categoria == "OTHER") (catBase t) ≤
      List.countP (fun r => normLabel r.categoria == "OTHER") t := by
  have h1 := List.Sublist.countP_le (fun r => r.categoria == "OTHER")
    (dedup_sublist ((catNorm t).filter (fun r =>
      !(r.id.isNone && (pyStrip (if r.categoria = "NAN" then "" else r.categoria) = "")))))
  have h2 := List.Sublist.countP_le (fun r => r.categoria == "OTHER")
    (List.filter_sublist (l := catNorm t) (p := fun r =>
      !(r.id.isNone && (pyStrip (if r.categoria = "NAN" then "" else r.categoria) = ""))))
  have h3 : List.countP (fun r => r.categoria == "OTHER") (catNorm t) =
      List.countP (fun r => normLabel r.categoria == "OTHER") t := by
    rw [catNorm, List.countP_map]
    rfl
  calc List.countP (fun r => r.categoria == "OTHER") (catBase t)
      ≤ _ := h1
    _ ≤ _ := h2
    _ = _ := h3

theorem prepare_categoria_spec (t : List CategoriaRow)
    (H1 : ∀ r ∈ t, r.id ≠ none)
    (H2 : ∀ r ∈ t, ∀ s ∈ t, normLabel r.categoria = "OTHER" → r.id = s.id →
      normLabel s.categoria = "OTHER")
    (H3 : List.countP (fun r => normLabel r.categoria == "OTHER") t ≤ 1) :
    ∃ tc k, prepare_categoria t = some (tc, k) ∧
      List.countP (fun r => r.categoria == "OTHER") tc = 1 ∧
      (∀ r ∈ tc, r.categoria = "OTHER" → r.id = k) ∧
      (∀ r ∈ tc, r.categoria ≠ "OTHER" → r.id ≠ k) := by
  have ids : ∀ r ∈ catBase t, ∃ j, r.id = some j := by
    intro r hr
    obtain ⟨r0, h0, heq⟩ := catBase_mem hr
    cases hid : r0.id with
    | none => exact absurd hid (H1 r0 h0)
    | some j => exact ⟨j, by rw [heq, hid]⟩
  have hcount2 : List.countP (fun r => r.categoria == "OTHER") (catBase t) ≤ 1 :=
    le_trans (catBase_countP_le t) H3
  by_cases hother : (catBase t).any (fun r => r.categoria = "OTHER") = true
  · -- an OTHER row already exists
    obtain ⟨rO, hrO, hPO⟩ := List.any_eq_true.mp hother
    cases hrF : (catBase t).find? (fun r => r.categoria = "OTHER") with
    | none => exact absurd hPO (List.find?_eq_none.mp hrF rO hrO)
    | some rF =>
    have hrFmem := List.mem_of_find?_eq_some hrF
    have hsfind := List.find?_some hrF
    have hrFP : rF.categoria = "OTHER" := of_decide_eq_true hsfind
    obtain ⟨k, hk⟩ := ids rF hrFmem
    have huniq : ∀ s ∈ catBase t, s.categoria = "OTHER" → s = rF := by
      intro s hs hsP
      have hsF : s ∈ (catBase t).filter (fun r => r.categoria == "OTHER") :=
        List.mem_filter.mpr ⟨hs, by rw [hsP]; rfl⟩
      have hrFF : rF ∈ (catBase t).filter (fun r => r.categoria == "OTHER") :=
        List.mem_filter.mpr ⟨hrFmem, by rw [hrFP]; rfl⟩
      have hlen : ((catBase t).filter (fun r => r.categoria == "OTHER")).length ≤ 1 := by
        rw [← List.countP_eq_length_filter]
        exact hcount2
      exact mem_unique_of_length_le_one hlen hsF hrFF
    refine ⟨(catBase t).map (fun r => ⟨r.id.getD k, r.categoria⟩), k, ?_, ?_, ?_, ?_⟩
    · simp only [prepare_categoria]
      rw [if_pos hother]
      simp only [hrF, hk]
      rw [catCast_eq]
    · rw [List.countP_map]
      have heq : List.countP ((fun (r : CategoriaCleanRow) => r.categoria == "OTHER") ∘
          (fun (r : CategoriaNRow) => (⟨r.id.getD k, r.categoria⟩ : CategoriaCleanRow)))
          (catBase t) = List.countP (fun r => r.categoria == "OTHER") (catBase t) := rfl
      rw [heq]
      have hpos : 0 < List.countP (fun r => r.categoria == "OTHER") (catBase t) :=
        List.countP_pos_iff.mpr ⟨rF, hrFmem, by rw [hrFP]; rfl⟩
      omega
    · intro r hr hP
      obtain ⟨s, hs, heq⟩ := List.mem_map.mp hr
      have hsP : s.categoria = "OTHER" := by rw [← heq] at hP; exact hP
      have hsrF : s = rF := huniq s hs hsP
      subst hsrF
      rw [← heq]
      show s.id.getD k = k
      rw [hk]
      rfl
    · intro r hr hP hidk
      obtain ⟨s, hs, heq⟩ := List.mem_map.mp hr
      have hsP : s.categoria ≠ "OTHER" := by rw [← heq] at hP; exact hP
      obtain ⟨j, hj⟩ := ids s hs
      have hjk : j = k := by
        rw [← heq] at hidk
        have hgd : s.id.getD k = k := hidk
        rw [hj] at hgd
        exact hgd
      subst hjk
      obtain ⟨s0, hs0, hseq⟩ := catBase_mem hs
      obtain ⟨p0, hp0, hpeq⟩ := catBase_mem hrFmem
      have hnorm_p0 : normLabel p0.categoria = "OTHER" := by
        rw [hpeq] at hrFP
        exact hrFP
      have hid_eq : p0.id = s0.id := by
        have h1 : p0.id = some j := by rw [hpeq] at hk; exact hk
        have h2 : s0.id = some j := by rw [hseq] at hj; exact hj
        rw [h1, h2]
      have hs0O := H2 p0 hp0 s0 hs0 hnorm_p0 hid_eq
      apply hsP
      rw [hseq]
      exact hs0O
  · -- no OTHER row: one is appended with id max + 1
    have hnone : ∀ r ∈ catBase t, ¬(r.categoria = "OTHER") := by
      intro r hr hP
      exact (List.any_eq_false.mp (Bool.eq_false_iff.mpr hother)) r hr (by rw [hP]; rfl)
    set ov : Int := (maxId ((catBase t).filterMap (fun r => r.id))).getD 0 + 1 with hov
    refine ⟨((catBase t) ++ [(⟨some ov, "OTHER"⟩ : CategoriaNRow)]).map
          (fun r => (⟨r.id.getD ov, r.categoria⟩ : CategoriaCleanRow)), ov, ?_, ?_, ?_, ?_⟩
    · simp only [prepare_categoria]
      rw [if_neg hother, ← hov, catCast_eq]
    · rw [List.countP_map, List.countP_append]
      have h0 : List.countP ((fun (r : CategoriaCleanRow) => r.categoria == "OTHER") ∘
          (fun (r : CategoriaNRow) =>
            (⟨r.id.getD ov, r.categoria⟩ : CategoriaCleanRow))) (catBase t) = 0 := by
        rw [List.countP_eq_zero]
        intro s hs
        have hsn := hnone s hs
        simp only [Function.comp]
        intro hc
        exact hsn (of_decide_eq_true hc)
      rw [h0]
      rfl
    · intro r hr hP
      obtain ⟨s, hs, heq⟩ := List.mem_map.mp hr
      rcases List.mem_append.mp hs with hs2 | hsApp
      · have hsP : s.categoria = "OTHER" := by rw [← heq] at hP; exact hP
        exact absurd hsP (hnone s hs2)
      · rcases List.mem_singleton.mp hsApp with rfl
        rw [← heq]
        rfl
    · intro r hr hP hidk
      obtain ⟨s, hs, heq⟩ := List.mem_map.mp hr
      rcases List.mem_append.mp hs with hs2 | hsApp
      · obtain ⟨j, hj⟩ := ids s hs2
        have hjmem : j ∈ (catBase t).filterMap (fun r => r.id) :=
          List.mem_filterMap.mpr ⟨s, hs2, hj⟩
        obtain ⟨m, hm, hjm⟩ := maxId_le_of_mem hjmem
        have hval : r.id = j := by rw [← heq]; show s.id.getD _ = j; rw [hj]; rfl
        rw [hval, hov, hm] at hidk
        simp only [Option.getD_some] at hidk
        omega
      · rcases List.mem_singleton.mp hsApp with rfl
        apply hP
        rw [← heq]

theorem marcaBase_mem {t : List MarcaRow} {r : MarcaNRow} (hr : r ∈ marcaBase t) :
    ∃ r0 ∈ t, r = ⟨r0.id, normLabel r0.marca⟩ := by
  have hr1 := mem_of_mem_dedup hr
  have hr0 := List.mem_of_mem_filter hr1
  obtain ⟨r0, h0, heq⟩ := List.mem_map.mp hr0
  exact ⟨r0, h0, heq.symm⟩

theorem marcaBase_countP_le (t : List MarcaRow) :
    List.countP (fun r => r.marca == "OTHER") (marcaBase t) ≤
      List.countP (fun r => normLabel r.marca == "OTHER") t := by
  have h1 := List.Sublist.countP_le (fun r => r.marca == "OTHER")
    (dedup_sublist ((marcaNorm t).filter (fun r =>
      !(r.id.isNone && (pyStrip (if r.marca = "NAN" then "" else r.marca) = "")))))
  have h2 := List.Sublist.countP_le (fun r => r.marca == "OTHER")
    (List.filter_sublist (l := marcaNorm t) (p := fun r =>
      !(r.id.isNone && (pyStrip (if r.marca = "NAN" then "" else r.marca) = ""))))
  have h3 : List.countP (fun r => r.marca == "OTHER") (marcaNorm t) =
      List.countP (fun r => normLabel r.marca == "OTHER") t := by
    rw [marcaNorm, List.countP_map]
    rfl
  calc List.countP (fun r => r.marca == "OTHER") (marcaBase t)
      ≤ _ := h1
    _ ≤ _ := h2
    _ = _ := h3

theorem prepare_marca_spec (t : List MarcaRow)
    (H1 : ∀ r ∈ t, r.id ≠ none)
    (H2 : ∀ r ∈ t, ∀ s ∈ t, normLabel r.marca = "OTHER" → r.id = s.id →
      normLabel s.marca = "OTHER")
    (H3 : List.countP (fun r => normLabel r.marca == "OTHER") t ≤ 1) :
    ∃ tc k, prepare_marca t = some (tc, k) ∧
      List.countP (fun r => r.marca == "OTHER") tc = 1 ∧
      (∀ r ∈ tc, r.marca = "OTHER" → r.id = k) ∧
      (∀ r ∈ tc, r.marca ≠ "OTHER" → r.id ≠ k) := by
  have ids : ∀ r ∈ marcaBase t, ∃ j, r.id = some j := by
    intro r hr
    obtain ⟨r0, h0, heq⟩ := marcaBase_mem hr
    cases hid : r0.id with
    | none => exact absurd hid (H1 r0 h0)
    | some j => exact ⟨j, by rw [heq, hid]⟩
  have hcount2 : List.countP (fun r => r.marca == "OTHER") (marcaBase t) ≤ 1 :=
    le_trans (marcaBase_countP_le t) H3
  by_cases hother : (marcaBase t).any (fun r => r.marca = "OTHER") = true
  · -- an OTHER row already exists
    obtain ⟨rO, hrO, hPO⟩ := List.any_eq_true.mp hother
    cases hrF : (marcaBase t).find? (fun r => r.marca = "OTHER") with
    | none => exact absurd hPO (List.find?_eq_none.mp hrF rO hrO)
    | some rF =>
    have hrFmem := List.mem_of_find?_eq_some hrF
    have hsfind := List.find?_some hrF
    have hrFP : rF.marca = "OTHER" := of_decide_eq_true hsfind
    obtain ⟨k, hk⟩ := ids rF hrFmem
    have huniq : ∀ s ∈ marcaBase t, s.marca = "OTHER" → s = rF := by
      intro s hs hsP
      have hsF : s ∈ (marcaBase t).filter (fun r => r.marca == "OTHER") :=
        List.mem_filter.mpr ⟨hs, by rw [hsP]; rfl⟩
      have hrFF : rF ∈ (marcaBase t).filter (fun r => r.marca == "OTHER") :=
        List.mem_filter.mpr ⟨hrFmem, by rw [hrFP]; rfl⟩
      have hlen : ((marcaBase t).filter (fun r => r.marca == "OTHER")).length ≤ 1 := by
        rw [← List.countP_eq_length_filter]
        exact hcount2
      exact mem_unique_of_length_le_one hlen hsF hrFF
    refine ⟨(marcaBase t).map (fun r => ⟨r.id.getD k, r.marca⟩), k, ?_, ?_, ?_, ?_⟩
    · simp only [prepare_marca]
      rw [if_pos hother]
      simp only [hrF, hk]
      rw [marcaCast_eq]
    · rw [List.countP_map]
      have heq : List.countP ((fun (r : MarcaCleanRow) => r.marca == "OTHER") ∘
          (fun (r : MarcaNRow) => (⟨r.id.getD k, r.marca⟩ : MarcaCleanRow)))
          (marcaBase t) = List.countP (fun r => r.marca == "OTHER") (marcaBase t) := rfl
      rw [heq]
      have hpos : 0 < List.countP (fun r => r.marca == "OTHER") (marcaBase t) :=
        List.countP_pos_iff.mpr ⟨rF, hrFmem, by rw [hrFP]; rfl⟩
      omega
    · intro r hr hP
      obtain ⟨s, hs, heq⟩ := List.mem_map.mp hr
      have hsP : s.marca = "OTHER" := by rw [← heq] at hP; exact hP
      have hsrF : s = rF := huniq s hs hsP
      subst hsrF
      rw [← heq]
      show s.id.getD k = k
      rw [hk]
      rfl
    · intro r hr hP hidk
      obtain ⟨s, hs, heq⟩ := List.mem_map.mp hr
      have hsP : s.marca ≠ "OTHER" := by rw [← heq] at hP; exact hP
      obtain ⟨j, hj⟩ := ids s hs
      have hjk : j = k := by
        rw [← heq] at hidk
        have hgd : s.id.getD k = k := hidk
        rw [hj] at hgd
        exact hgd
      subst hjk
      obtain ⟨s0, hs0, hseq⟩ := marcaBase_mem hs
      obtain ⟨p0, hp0, hpeq⟩ := marcaBase_mem hrFmem
      have hnorm_p0 : normLabel p0.marca = "OTHER" := by
        rw [hpeq] at hrFP
        exact hrFP
      have hid_eq : p0.id = s0.id := by
        have h1 : p0.id = some j := by rw [hpeq] at hk; exact hk
        have h2 : s0.id = some j := by rw [hseq] at hj; exact hj
        rw [h1, h2]
      have hs0O := H2 p0 hp0 s0 hs0 hnorm_p0 hid_eq
      apply hsP
      rw [hseq]
      exact hs0O
  · -- no OTHER row: one is appended with id max + 1
    have hnone : ∀ r ∈ marcaBase t, ¬(r.marca = "OTHER") := by
      intro r hr hP
      exact (List.any_eq_false.mp (Bool.eq_false_iff.mpr hother)) r hr (by rw [hP]; rfl)
    set ov : Int := (maxId ((marcaBase t).filterMap (fun r => r.id))).getD 0 + 1 with hov
    refine ⟨((marcaBase t) ++ [(⟨some ov, "OTHER"⟩ : MarcaNRow)]).map
          (fun r => (⟨r.id.getD ov, r.marca⟩ : MarcaCleanRow)), ov, ?_, ?_, ?_, ?_⟩
    · simp only [prepare_marca]
      rw [if_neg hother, ← hov, marcaCast_eq]
    · rw [List.countP_map, List.countP_append]
      have h0 : List.countP ((fun (r : MarcaCleanRow) => r.marca == "OTHER") ∘
          (fun (r : MarcaNRow) =>
            (⟨r.id.getD ov, r.marca⟩ : MarcaCleanRow))) (marcaBase t) = 0 := by
        rw [List.countP_eq_zero]
        intro s hs
        have hsn := hnone s hs
        simp only [Function.comp]
        intro hc
        exact hsn (of_decide_eq_true hc)
      rw [h0]
      rfl
    · intro r hr hP
      obtain ⟨s, hs, heq⟩ := List.mem_map.mp hr
      rcases List.mem_append.mp hs with hs2 | hsApp
      · have hsP : s.marca = "OTHER" := by rw [← heq] at hP; exact hP
        exact absurd hsP (hnone s hs2)
      · rcases List.mem_singleton.mp hsApp with rfl
        rw [← heq]
        rfl
    · intro r hr hP hidk
      obtain ⟨s, hs, heq⟩ := List.mem_map.mp hr
      rcases List.mem_append.mp hs with hs2 | hsApp
      · obtain ⟨j, hj⟩ := ids s hs2
        have hjmem : j ∈ (marcaBase t).filterMap (fun r => r.id) :=
          List.mem_filterMap.mpr ⟨s, hs2, hj⟩
        obtain ⟨m, hm, hjm⟩ := maxId_le_of_mem hjmem
        have hval : r.id = j := by rw [← heq]; show s.id.getD _ = j; rw [hj]; rfl
        rw [hval, hov, hm] at hidk
        simp only [Option.getD_some] at hidk
        omega
      · rcases List.mem_singleton.mp hsApp with rfl
        apply hP
        rw [← heq]

/-- C1 (amended): provided every input row has a present id, any row sharing
an id with a row whose normalised label is OTHER itself normalises to OTHER,
and at most one input row normalises to OTHER, prepare_categoria succeeds and
the returned table has exactly one row labelled OTHER, that row's id is the
returned sentinel, and no other row carries that id; likewise for
prepare_marca.  Without these hypotheses the returned table can contain two
OTHER rows, or rows sharing the sentinel id (see the counterexample). -/
theorem C1_other_sentinel :
    (∀ t : List CategoriaRow,
      (∀ r ∈ t, r.id ≠ none) →
      (∀ r ∈ t, ∀ s ∈ t, normLabel r.categoria = "OTHER" → r.id = s.id →
        normLabel s.categoria = "OTHER") →
      List.countP (fun r => normLabel r.categoria == "OTHER") t ≤ 1 →
      ∃ tc k, prepare_categoria t = some (tc, k) ∧
        List.countP (fun r => r.categoria == "OTHER") tc = 1 ∧
        (∀ r ∈ tc, r.categoria = "OTHER" → r.id = k) ∧
        (∀ r ∈ tc, r.categoria ≠ "OTHER" → r.id ≠ k))
    ∧ (∀ t : List MarcaRow,
      (∀ r ∈ t, r.id ≠ none) →
      (∀ r ∈ t, ∀ s ∈ t, normLabel r.marca = "OTHER" → r.id = s.id →
        normLabel s.marca = "OTHER") →
      List.countP (fun r => normLabel r.marca == "OTHER") t ≤ 1 →
      ∃ tc k, prepare_marca t = some (tc, k) ∧
        List.countP (fun r => r.marca == "OTHER") tc = 1 ∧
        (∀ r ∈ tc, r.marca = "OTHER" → r.id = k) ∧
        (∀ r ∈ tc, r.marca ≠ "OTHER" → r.id ≠ k)) :=
  ⟨prepare_categoria_spec, prepare_marca_spec⟩

/-- C1 counterexample: two input rows normalising to OTHER ((1, "OTHER") and
(2, "other")) both survive, so the returned table does not contain exactly one
OTHER row. -/
theorem C1_counterexample :
    prepare_categoria [⟨some 1, some "OTHER"⟩, ⟨some 2, some "other"⟩] =
      some ([⟨1, "OTHER"⟩, ⟨2, "OTHER"⟩], 1) ∧
    List.countP (fun r => r.categoria == "OTHER")
      ([⟨1, "OTHER"⟩, ⟨2, "OTHER"⟩] : List CategoriaCleanRow) ≠ 1 :=
  ⟨by decide, by decide⟩

/-- C1 witness: the amended statement applied to the one-row table
[(1, "a")], where an OTHER row with id 2 is appended. -/
theorem C1_witness :
    ∃ tc k, prepare_categoria [⟨some 1, some "a"⟩] = some (tc, k) ∧
      List.countP (fun r => r.categoria == "OTHER") tc = 1 ∧
      (∀ r ∈ tc, r.categoria = "OTHER" → r.id = k) ∧
      (∀ r ∈ tc, r.categoria ≠ "OTHER" → r.id ≠ k) :=
  C1_other_sentinel.1 [⟨some 1, some "a"⟩] (by decide) (by decide) (by decide)

theorem catBase_relabel (M : List CategoriaNRow)
    (hid : ∀ r ∈ M, ∃ j, r.id = some j)
    (hlab : ∀ r ∈ M, normLabel (some r.categoria) = r.categoria)
    (hnd : M.Nodup) (k : Int) :
    catBase ((M.map (fun r => (⟨r.id.getD k, r.categoria⟩ : CategoriaCleanRow))).map
      (fun r => (⟨some r.id, some r.categoria⟩ : CategoriaRow))) = M := by
  show dedup _ = M
  have hmap : catNorm ((M.map (fun r => (⟨r.id.getD k, r.categoria⟩ : CategoriaCleanRow))).map
      (fun r => (⟨some r.id, some r.categoria⟩ : CategoriaRow))) = M := by
    rw [catNorm, List.map_map, List.map_map]
    have hpt : ∀ r ∈ M,
        (((fun (r : CategoriaRow) => (⟨r.id, normLabel r.categoria⟩ : CategoriaNRow)) ∘
          (fun (r : CategoriaCleanRow) => (⟨some r.id, some r.categoria⟩ : CategoriaRow))) ∘
           (fun (r : CategoriaNRow) => (⟨r.id.getD k, r.categoria⟩ : CategoriaCleanRow))) r
          = id r := by
      intro r hr
      obtain ⟨j, hj⟩ := hid r hr
      have hl := hlab r hr
      cases r with
      | mk rid rcat =>
        simp only at hj hl
        subst hj
        show (⟨some ((some j).getD k), normLabel (some rcat)⟩ : CategoriaNRow) = ⟨some j, rcat⟩
        rw [hl]
        rfl
    rw [List.map_congr_left hpt, List.map_id]
  rw [hmap]
  have hfilter : List.filter (fun (r : CategoriaNRow) =>
      !(r.id.isNone && (pyStrip (if r.categoria = "NAN" then "" else r.categoria) = ""))) M
      = M := by
    rw [List.filter_eq_self]
    intro r hr
    obtain ⟨j, hj⟩ := hid r hr
    rw [hj]
    rfl
  rw [hfilter]
  exact dedup_eq_self M hnd

theorem prepare_categoria_idem (t : List CategoriaRow)
    (H1 : ∀ r ∈ t, r.id ≠ none) (tc : List CategoriaCleanRow) (k : Int)
    (h : prepare_categoria t = some (tc, k)) :
    prepare_categoria (tc.map (fun r => (⟨some r.id, some r.categoria⟩ : CategoriaRow))) =
      some (tc, k) := by
  have ids : ∀ r ∈ catBase t, ∃ j, r.id = some j := by
    intro r hr
    obtain ⟨r0, h0, heq⟩ := catBase_mem hr
    cases hid : r0.id with
    | none => exact absurd hid (H1 r0 h0)
    | some j => exact ⟨j, by rw [heq, hid]⟩
  have hlab0 : ∀ r ∈ catBase t, normLabel (some r.categoria) = r.categoria := by
    intro r hr
    obtain ⟨r0, _, heq⟩ := catBase_mem hr
    cases r with
    | mk rid rcat =>
      have hcat : rcat = normLabel r0.categoria := congrArg CategoriaNRow.categoria heq
      subst hcat
      exact congrArg (fun s => (⟨rid, s⟩ : CategoriaNRow).categoria)
        (normLabel_idem r0.categoria)
  have hnd0 : (catBase t).Nodup := dedup_nodup _
  simp only [prepare_categoria] at h ⊢
  by_cases hother : (catBase t).any (fun r => r.categoria = "OTHER") = true
  · rw [if_pos hother] at h
    cases hrF : (catBase t).find? (fun r => r.categoria = "OTHER") with
    | none =>
      rw [hrF] at h
      exact Option.noConfusion h
    | some rF =>
      simp only [hrF] at h
      cases hkid : rF.id with
      | none =>
        simp only [hkid] at h
        exact Option.noConfusion h
      | some k0 =>
        simp only [hkid] at h
        rw [catCast_eq] at h
        have hpair := Option.some.inj h
        have htc : (catBase t).map
            (fun r => (⟨r.id.getD k0, r.categoria⟩ : CategoriaCleanRow)) = tc :=
          congrArg Prod.fst hpair
        have hkk : k0 = k := congrArg Prod.snd hpair
        subst hkk
        rw [← htc]
        rw [catBase_relabel (catBase t) ids hlab0 hnd0 k0]
        rw [if_pos hother]
        simp only [hrF, hkid]
        rw [catCast_eq]
  · rw [if_neg hother] at h
    have hnone : ∀ r ∈ catBase t, ¬(r.categoria = "OTHER") := by
      intro r hr hP
      exact (List.any_eq_false.mp (Bool.eq_false_iff.mpr hother)) r hr (by rw [hP]; rfl)
    rw [catCast_eq] at h
    set ov : Int := (maxId ((catBase t).filterMap (fun r => r.id))).getD 0 + 1 with hov
    have hpair := Option.some.inj h
    have htc : ((catBase t) ++ [(⟨some ov, "OTHER"⟩ : CategoriaNRow)]).map
        (fun r => (⟨r.id.getD ov, r.categoria⟩ : CategoriaCleanRow)) = tc :=
      congrArg Prod.fst hpair
    have hkk : ov = k := congrArg Prod.snd hpair
    subst hkk
    have hidM : ∀ r ∈ (catBase t) ++ [(⟨some ov, "OTHER"⟩ : CategoriaNRow)],
        ∃ j, r.id = some j := by
      intro r hr
      rcases List.mem_append.mp hr with h2 | hApp
      · exact ids r h2
      · rcases List.mem_singleton.mp hApp with rfl
        exact ⟨ov, rfl⟩
    have hlabM : ∀ r ∈ (catBase t) ++ [(⟨some ov, "OTHER"⟩ : CategoriaNRow)],
        normLabel (some r.categoria) = r.categoria := by
      intro r hr
      rcases List.mem_append.mp hr with h2 | hApp
      · exact hlab0 r h2
      · rcases List.mem_singleton.mp hApp with rfl
        rfl
    have hndM : ((catBase t) ++ [(⟨some ov, "OTHER"⟩ : CategoriaNRow)]).Nodup := by
      rw [List.nodup_append]
      refine ⟨hnd0, List.nodup_singleton _, ?_⟩
      intro a ha hb
      rcases List.mem_singleton.mp hb with rfl
      exact hnone _ ha rfl
    rw [← htc]
    rw [catBase_relabel _ hidM hlabM hndM ov]
    have hany2 : ((catBase t) ++ [(⟨some ov, "OTHER"⟩ : CategoriaNRow)]).any
        (fun r => r.categoria = "OTHER") = true :=
      List.any_eq_true.mpr ⟨⟨some ov, "OTHER"⟩,
        List.mem_append.mpr (Or.inr (List.mem_singleton.mpr rfl)), rfl⟩
    rw [if_pos hany2]
    have hfindnone : (catBase t).find? (fun r => r.categoria = "OTHER") = none :=
      List.find?_eq_none.mpr (fun x hx => by
        simp only [decide_eq_true_eq]
        exact hnone x hx)
    have hfind2 : ((catBase t) ++ [(⟨some ov, "OTHER"⟩ : CategoriaNRow)]).find?
        (fun r => r.categoria = "OTHER") = some ⟨some ov, "OTHER"⟩ := by
      rw [List.find?_append, hfindnone]
      rfl
    simp only [hfind2]
    rw [catCast_eq]

theorem marcaBase_relabel (M : List MarcaNRow)
    (hid : ∀ r ∈ M, ∃ j, r.id = some j)
    (hlab : ∀ r ∈ M, normLabel (some r.marca) = r.marca)
    (hnd : M.Nodup) (k : Int) :
    marcaBase ((M.map (fun r => (⟨r.id.getD k, r.marca⟩ : MarcaCleanRow))).map
      (fun r => (⟨some r.id, some r.marca⟩ : MarcaRow))) = M := by
  show dedup _ = M
  have hmap : marcaNorm ((M.map (fun r => (⟨r.id.getD k, r.marca⟩ : MarcaCleanRow))).map
      (fun r => (⟨some r.id, some r.marca⟩ : MarcaRow))) = M := by
    rw [marcaNorm, List.map_map, List.map_map]
    have hpt : ∀ r ∈ M,
        (((fun (r : MarcaRow) => (⟨r.id, normLabel r.marca⟩ : MarcaNRow)) ∘
          (fun (r : MarcaCleanRow) => (⟨some r.id, some r.marca⟩ : MarcaRow))) ∘
           (fun (r : MarcaNRow) => (⟨r.id.getD k, r.marca⟩ : MarcaCleanRow))) r
          = id r := by
      intro r hr
      obtain ⟨j, hj⟩ := hid r hr
      have hl := hlab r hr
      cases r with
      | mk rid rcat =>
        simp only at hj hl
        subst hj
        show (⟨some ((some j).getD k), normLabel (some rcat)⟩ : MarcaNRow) = ⟨some j, rcat⟩
        rw [hl]
        rfl
    rw [List.map_congr_left hpt, List.map_id]
  rw [hmap]
  have hfilter : List.filter (fun (r : MarcaNRow) =>
      !(r.id.isNone && (pyStrip (if r.marca = "NAN" then "" else r.marca) = ""))) M
      = M := by
    rw [List.filter_eq_self]
    intro r hr
    obtain ⟨j, hj⟩ := hid r hr
    rw [hj]
    rfl
  rw [hfilter]
  exact dedup_eq_self M hnd

theorem prepare_marca_idem (t : List MarcaRow)
    (H1 : ∀ r ∈ t, r.id ≠ none) (tc : List MarcaCleanRow) (k : Int)
    (h : prepare_marca t = some (tc, k)) :
    prepare_marca (tc.map (fun r => (⟨some r.id, some r.marca⟩ : MarcaRow))) =
      some (tc, k) := by
  have ids : ∀ r ∈ marcaBase t, ∃ j, r.id = some j := by
    intro r hr
    obtain ⟨r0, h0, heq⟩ := marcaBase_mem hr
    cases hid : r0.id with
    | none => exact absurd hid (H1 r0 h0)
    | some j => exact ⟨j, by rw [heq, hid]⟩
  have hlab0 : ∀ r ∈ marcaBase t, normLabel (some r.marca) = r.marca := by
    intro r hr
    obtain ⟨r0, _, heq⟩ := marcaBase_mem hr
    cases r with
    | mk rid rcat =>
      have hcat : rcat = normLabel r0.marca := congrArg MarcaNRow.marca heq
      subst hcat
      exact congrArg (fun s => (⟨rid, s⟩ : MarcaNRow).marca)
        (normLabel_idem r0.marca)
  have hnd0 : (marcaBase t).Nodup := dedup_nodup _
  simp only [prepare_marca] at h ⊢
  by_cases hother : (marcaBase t).any (fun r => r.marca = "OTHER") = true
  · rw [if_pos hother] at h
    cases hrF : (marcaBase t).find? (fun r => r.marca = "OTHER") with
    | none =>
      rw [hrF] at h
      exact Option.noConfusion h
    | some rF =>
      simp only [hrF] at h
      cases hkid : rF.id with
      | none =>
        simp only [hkid] at h
        exact Option.noConfusion h
      | some k0 =>
        simp only [hkid] at h
        rw [marcaCast_eq] at h
        have hpair := Option.some.inj h
        have htc : (marcaBase t).map
            (fun r => (⟨r.id.getD k0, r.marca⟩ : MarcaCleanRow)) = tc :=
          congrArg Prod.fst hpair
        have hkk : k0 = k := congrArg Prod.snd hpair
        subst hkk
        rw [← htc]
        rw [marcaBase_relabel (marcaBase t) ids hlab0 hnd0 k0]
        rw [if_pos hother]
        simp only [hrF, hkid]
        rw [marcaCast_eq]
  · rw [if_neg hother] at h
    have hnone : ∀ r ∈ marcaBase t, ¬(r.marca = "OTHER") := by
      intro r hr hP
      exact (List.any_eq_false.mp (Bool.eq_false_iff.mpr hother)) r hr (by rw [hP]; rfl)
    rw [marcaCast_eq] at h
    set ov : Int := (maxId ((marcaBase t).filterMap (fun r => r.id))).getD 0 + 1 with hov
    have hpair := Option.some.inj h
    have htc : ((marcaBase t) ++ [(⟨some ov, "OTHER"⟩ : MarcaNRow)]).map
        (fun r => (⟨r.id.getD ov, r.marca⟩ : MarcaCleanRow)) = tc :=
      congrArg Prod.fst hpair
    have hkk : ov = k := congrArg Prod.snd hpair
    subst hkk
    have hidM : ∀ r ∈ (marcaBase t) ++ [(⟨some ov, "OTHER"⟩ : MarcaNRow)],
        ∃ j, r.id = some j := by
      intro r hr
      rcases List.mem_append.mp hr with h2 | hApp
      · exact ids r h2
      · rcases List.mem_singleton.mp hApp with rfl
        exact ⟨ov, rfl⟩
    have hlabM : ∀ r ∈ (marcaBase t) ++ [(⟨some ov, "OTHER"⟩ : MarcaNRow)],
        normLabel (some r.marca) = r.marca := by
      intro r hr
      rcases List.mem_append.mp hr with h2 | hApp
      · exact hlab0 r h2
      · rcases List.mem_singleton.mp hApp with rfl
        rfl
    have hndM : ((marcaBase t) ++ [(⟨some ov, "OTHER"⟩ : MarcaNRow)]).Nodup := by
      rw [List.nodup_append]
      refine ⟨hnd0, List.nodup_singleton _, ?_⟩
      intro a ha hb
      rcases List.mem_singleton.mp hb with rfl
      exact hnone _ ha rfl
    rw [← htc]
    rw [marcaBase_relabel _ hidM hlabM hndM ov]
    have hany2 : ((marcaBase t) ++ [(⟨some ov, "OTHER"⟩ : MarcaNRow)]).any
        (fun r => r.marca = "OTHER") = true :=
      List.any_eq_true.mpr ⟨⟨some ov, "OTHER"⟩,
        List.mem_append.mpr (Or.inr (List.mem_singleton.mpr rfl)), rfl⟩
    rw [if_pos hany2]
    have hfindnone : (marcaBase t).find? (fun r => r.marca = "OTHER") = none :=
      List.find?_eq_none.mpr (fun x hx => by
        simp only [decide_eq_true_eq]
        exact hnone x hx)
    have hfind2 : ((marcaBase t) ++ [(⟨some ov, "OTHER"⟩ : MarcaNRow)]).find?
        (fun r => r.marca = "OTHER") = some ⟨some ov, "OTHER"⟩ := by
      rw [List.find?_append, hfindnone]
      rfl
    simp only [hfind2]
    rw [marcaCast_eq]

/-- C7 (amended): provided every input row has a present id, re-running
prepare_categoria (resp. prepare_marca) on its own returned table — read back
as a raw table — returns the identical table and the same sentinel id.  With a
missing id the first run can emit duplicate rows, which a second run removes
(see the counterexample). -/
theorem C7_dimension_idempotent :
    (∀ (t : List CategoriaRow) (tc : List CategoriaCleanRow) (k : Int),
      (∀ r ∈ t, r.id ≠ none) → prepare_categoria t = some (tc, k) →
      prepare_categoria (tc.map (fun r => (⟨some r.id, some r.categoria⟩ : CategoriaRow))) =
        some (tc, k))
    ∧ (∀ (t : List MarcaRow) (tc : List MarcaCleanRow) (k : Int),
      (∀ r ∈ t, r.id ≠ none) → prepare_marca t = some (tc, k) →
      prepare_marca (tc.map (fun r => (⟨some r.id, some r.marca⟩ : MarcaRow))) =
        some (tc, k)) :=
  ⟨fun t tc k H1 h => prepare_categoria_idem t H1 tc k h,
   fun t tc k H1 h => prepare_marca_idem t H1 tc k h⟩

/-- C7 counterexample: on the table [(1, "OTHER"), (missing, "A"), (1, "A")]
the first run fills the missing id with the sentinel 1 and returns the table
[(1, OTHER), (1, A), (1, A)] with duplicate rows; re-running the preparer on
that table drops the duplicate, so the output is not identical. -/
theorem C7_counterexample :
    prepare_categoria [⟨some 1, some "OTHER"⟩, ⟨none, some "A"⟩, ⟨some 1, some "A"⟩] =
      some ([⟨1, "OTHER"⟩, ⟨1, "A"⟩, ⟨1, "A"⟩], 1) ∧
    prepare_categoria
      (([⟨1, "OTHER"⟩, ⟨1, "A"⟩, ⟨1, "A"⟩] : List CategoriaCleanRow).map
        (fun r => (⟨some r.id, some r.categoria⟩ : CategoriaRow))) =
      some ([⟨1, "OTHER"⟩, ⟨1, "A"⟩], 1) ∧
    ([⟨1, "OTHER"⟩, ⟨1, "A"⟩] : List CategoriaCleanRow) ≠ [⟨1, "OTHER"⟩, ⟨1, "A"⟩, ⟨1, "A"⟩] :=
  ⟨by decide, by decide, by decide⟩

/-- C7 witness: idempotence applied to the concrete table [(1, "a")], whose
cleaned form is [(1, A), (2, OTHER)] with sentinel 2. -/
theorem C7_witness :
    prepare_categoria
      (([⟨1, "A"⟩, ⟨2, "OTHER"⟩] : List CategoriaCleanRow).map
        (fun r => (⟨some r.id, some r.categoria⟩ : CategoriaRow))) =
      some ([⟨1, "A"⟩, ⟨2, "OTHER"⟩], 2) :=
  C7_dimension_idempotent.1 [⟨some 1, some "a"⟩] [⟨1, "A"⟩, ⟨2, "OTHER"⟩] 2
    (by decide) (by decide)

theorem mem_map_rev {α β : Type} {f : α → β} {l : List α} {r : β}
    (hr : r ∈ l.map f) : ∃ a ∈ l, r = f a := by
  obtain ⟨a, ha, heq⟩ := List.mem_map.mp hr
  exact ⟨a, ha, heq.symm⟩

theorem medianQ_mem_bound_le {c : ℚ} {l : List ℚ} {m : ℚ} (hb : ∀ x ∈ l, c ≤ x)
    (hm : medianQ l = some m) : c ≤ m := by
  unfold medianQ at hm
  set s := List.insertionSort (fun a b => a ≤ b) l with hs
  have hmem : ∀ x ∈ s, c ≤ x := by
    intro x hx
    exact hb x ((List.mem_insertionSort _).mp hx)
  by_cases h0 : s.length = 0
  · rw [if_pos h0] at hm
    exact Option.noConfusion hm
  rw [if_neg h0] at hm
  by_cases hodd : s.length % 2 = 1
  · rw [if_pos hodd] at hm
    exact hmem m (List.get?_mem hm)
  · rw [if_neg hodd] at hm
    cases hg1 : s.get? (s.length / 2 - 1) with
    | none => rw [hg1] at hm; exact Option.noConfusion hm
    | some a =>
      cases hg2 : s.get? (s.length / 2) with
      | none => rw [hg1, hg2] at hm; exact Option.noConfusion hm
      | some b =>
        rw [hg1, hg2] at hm
        have ha : c ≤ a := hmem a (List.get?_mem hg1)
        have hbb : c ≤ b := hmem b (List.get?_mem hg2)
        have hmab : m = (a + b) / 2 := (Option.some.inj hm).symm
        rw [hmab]
        linarith

theorem prodBase_subset {P : List ProductoRow} {r : ProductoRow}
    (hr : r ∈ prodBase P) : r ∈ P :=
  mem_of_mem_dedup (List.mem_of_mem_filter hr)

theorem prepare_producto_eq (producto : List ProductoRow) (ob oc : Int) :
    prepare_producto producto ob oc =
      (catFillOther oc (catModeStep (bothNaOther ob oc (precioStepD (precioStepC
        (precioStepB (precioStepA (prodBase producto)))))))).map
        (fun r => ⟨r.id.getD 0, pyUpper (pyStrip (astypeStr r.nombre)),
                   r.categoria_id.getD oc, r.marca_id.getD ob, r.volumen, r.precio⟩) := by
  simp only [prepare_producto]
  rw [safe_int_cast_eq_map, safe_int_cast_eq_map, safe_int_cast_eq_map,
      List.map_map, List.map_map, List.map_map, zipIdCols_map]
  rfl

theorem precio_pos_p3 (P : List ProductoRow)
    (hyp1 : ∀ r ∈ P, ∀ q : ℚ, r.precio = some q → 0 ≤ q) :
    ∀ r ∈ precioStepB (precioStepA (prodBase P)), ∀ q : ℚ, r.precio = some q → 0 < q := by
  intro r hr q hq
  obtain ⟨r1, hr1, rfl⟩ := mem_map_rev hr
  have hq' : (if r1.precio = some 0 then none else r1.precio) = some q := hq
  by_cases h0 : r1.precio = some 0
  · rw [if_pos h0] at hq'
    exact Option.noConfusion hq'
  · rw [if_neg h0] at hq'
    have hqne : q ≠ 0 := by
      intro hz
      rw [hz] at hq'
      exact h0 hq'
    obtain ⟨r2, hr2, rfl⟩ := mem_map_rev hr1
    have hq2 : (match r2.precio with
        | some qq => some qq
        | none => grpMedianCatVol (prodBase P) r2.categoria_id r2.volumen) = some q := hq'
    cases hp2 : r2.precio with
    | some qq =>
      simp only [hp2] at hq2
      have hle := hyp1 r2 (prodBase_subset hr2) qq hp2
      have : qq = q := Option.some.inj hq2
      subst this
      exact lt_of_le_of_ne hle (Ne.symm hqne)
    | none =>
      simp only [hp2] at hq2
      cases hck : r2.categoria_id with
      | none =>
        simp only [grpMedianCatVol, hck] at hq2
        exact Option.noConfusion hq2
      | some c =>
        cases hvk : r2.volumen with
        | none =>
          simp only [grpMedianCatVol, hck, hvk] at hq2
          exact Option.noConfusion hq2
        | some v =>
          simp only [grpMedianCatVol, hck, hvk] at hq2
          have hall : ∀ x ∈ ((prodBase P).filter (fun s =>
              s.categoria_id = some c ∧ s.volumen = some v)).filterMap
                (fun s => s.precio), (0 : ℚ) ≤ x := by
            intro x hx
            obtain ⟨row, hrow, hpx⟩ := List.mem_filterMap.mp hx
            exact hyp1 row (prodBase_subset (List.mem_of_mem_filter hrow)) x hpx
          exact lt_of_le_of_ne (medianQ_mem_bound_le hall hq2) (Ne.symm hqne)

theorem precio_pos_p4 (P : List ProductoRow)
    (hyp1 : ∀ r ∈ P, ∀ q : ℚ, r.precio = some q → 0 ≤ q) :
    ∀ r ∈ precioStepC (precioStepB (precioStepA (prodBase P))), ∀ q : ℚ,
      r.precio = some q → 0 < q := by
  intro r hr q hq
  obtain ⟨r3, hr3, rfl⟩ := mem_map_rev hr
  have hq' : (match r3.precio with
      | some qq => some qq
      | none => grpMedianVol (precioStepB (precioStepA (prodBase P))) r3.volumen) =
      some q := hq
  cases hp3 : r3.precio with
  | some qq =>
    simp only [hp3] at hq'
    have : qq = q := Option.some.inj hq'
    subst this
    exact precio_pos_p3 P hyp1 r3 hr3 qq hp3
  | none =>
    simp only [hp3] at hq'
    cases hvk : r3.volumen with
    | none =>
      simp only [grpMedianVol, hvk] at hq'
      exact Option.noConfusion hq'
    | some v =>
      simp only [grpMedianVol, hvk] at hq'
      have hall : ∀ x ∈ ((precioStepB (precioStepA (prodBase P))).filter
          (fun s => s.volumen = some v)).filterMap (fun s => s.precio), (0 : ℚ) < x := by
        intro x hx
        obtain ⟨row, hrow, hpx⟩ := List.mem_filterMap.mp hx
        exact precio_pos_p3 P hyp1 row (List.mem_of_mem_filter hrow) x hpx
      exact medianQ_mem_bound hall hq'

theorem precioStepA_keeps {l : List ProductoRow} {a : ProductoRow} {q : ℚ}
    (ha : a ∈ l) (h : a.precio = some q) :
    ∃ b ∈ precioStepA l, b.precio = some q := by
  refine ⟨_, List.mem_map_of_mem _ ha, ?_⟩
  show (match a.precio with
    | some q' => some q'
    | none => grpMedianCatVol l a.categoria_id a.volumen) = some q
  rw [h]

theorem precioStepB_keeps {l : List ProductoRow} {b : ProductoRow} {q : ℚ}
    (hb : b ∈ l) (h : b.precio = some q) (hq : q ≠ 0) :
    ∃ c ∈ precioStepB l, c.precio = some q := by
  refine ⟨_, List.mem_map_of_mem _ hb, ?_⟩
  show (if b.precio = some 0 then none else b.precio) = some q
  rw [h, if_neg (fun hc => hq (Option.some.inj hc))]

theorem precioStepC_keeps {l : List ProductoRow} {c : ProductoRow} {q : ℚ}
    (hc : c ∈ l) (h : c.precio = some q) :
    ∃ d ∈ precioStepC l, d.precio = some q := by
  refine ⟨_, List.mem_map_of_mem _ hc, ?_⟩
  show (match c.precio with
    | some q' => some q'
    | none => grpMedianVol l c.volumen) = some q
  rw [h]

theorem precio_somepos_p5 (P : List ProductoRow)
    (hyp1 : ∀ r ∈ P, ∀ q : ℚ, r.precio = some q → 0 ≤ q)
    (hyp2 : ∃ r ∈ prodBase P, ∃ q : ℚ, r.precio = some q ∧ 0 < q) :
    ∀ r ∈ precioStepD (precioStepC (precioStepB (precioStepA (prodBase P)))),
      ∃ q : ℚ, r.precio = some q ∧ 0 < q := by
  obtain ⟨rs, hrs, qq, hq, hqpos⟩ := hyp2
  obtain ⟨b, hbmem, hbq⟩ := precioStepA_keeps hrs hq
  obtain ⟨c, hcmem, hcq⟩ := precioStepB_keeps hbmem hbq (ne_of_gt hqpos)
  obtain ⟨d, hdmem, hdq⟩ := precioStepC_keeps hcmem hcq
  intro r hr
  obtain ⟨r4, hr4, rfl⟩ := mem_map_rev hr
  cases hp4 : r4.precio with
  | some q =>
    exact ⟨q, rfl, precio_pos_p4 P hyp1 r4 hr4 q hp4⟩
  | none =>
    have hmemq : qq ∈ (precioStepC (precioStepB (precioStepA
        (prodBase P)))).filterMap (fun s => s.precio) :=
      List.mem_filterMap.mpr ⟨d, hdmem, hdq⟩
    obtain ⟨g, hg⟩ := medianQ_isSome (List.ne_nil_of_mem hmemq)
    have hgpos : 0 < g := by
      apply medianQ_mem_bound ?_ hg
      intro x hx
      obtain ⟨row, hrow, hpx⟩ := List.mem_filterMap.mp hx
      exact precio_pos_p4 P hyp1 row hrow x hpx
    exact ⟨g, hg, hgpos⟩

theorem bothNaOther_mem {ob oc : Int} {l : List ProductoRow} {r : ProductoRow}
    (hr : r ∈ bothNaOther ob oc l) :
    ∃ a ∈ l, r.precio = a.precio ∧ r.volumen = a.volumen ∧
      ((r.marca_id = some ob ∧ r.categoria_id = some oc ∧ a.marca_id = none ∧
        a.categoria_id = none) ∨
       (r.marca_id = a.marca_id ∧ r.categoria_id = a.categoria_id)) := by
  obtain ⟨a, ha, rfl⟩ := mem_map_rev hr
  refine ⟨a, ha, ?_⟩
  by_cases hc : (a.marca_id.isNone && a.categoria_id.isNone) = true
  · have hm : a.marca_id = none := by
      rcases (Bool.and_eq_true _ _).mp hc with ⟨h1, _⟩
      exact Option.isNone_iff_eq_none.mp h1
    have hcat : a.categoria_id = none := by
      rcases (Bool.and_eq_true _ _).mp hc with ⟨_, h2⟩
      exact Option.isNone_iff_eq_none.mp h2
    rw [if_pos hc]
    exact ⟨rfl, rfl, Or.inl ⟨rfl, rfl, hm, hcat⟩⟩
  · rw [if_neg hc]
    exact ⟨rfl, rfl, Or.inr ⟨rfl, rfl⟩⟩

theorem catModeStep_mem {l : List ProductoRow} {r : ProductoRow}
    (hr : r ∈ catModeStep l) :
    ∃ a ∈ l, r.precio = a.precio ∧ r.volumen = a.volumen ∧ r.marca_id = a.marca_id ∧
      ((r.categoria_id = a.categoria_id ∧ a.categoria_id ≠ none) ∨
       (a.categoria_id = none ∧
        r.categoria_id = grpModeMarcaVol l a.marca_id a.volumen)) := by
  obtain ⟨a, ha, rfl⟩ := mem_map_rev hr
  refine ⟨a, ha, ?_⟩
  cases hc : a.categoria_id with
  | none => exact ⟨rfl, rfl, rfl, Or.inr ⟨rfl, rfl⟩⟩
  | some c =>
    refine ⟨rfl, rfl, rfl, Or.inl ⟨rfl, ?_⟩⟩
    intro hnone
    exact Option.noConfusion hnone

theorem catFillOther_mem {oc : Int} {l : List ProductoRow} {r : ProductoRow}
    (hr : r ∈ catFillOther oc l) :
    ∃ a ∈ l, r.precio = a.precio ∧ r.volumen = a.volumen ∧ r.marca_id = a.marca_id ∧
      r.categoria_id = some (a.categoria_id.getD oc) := by
  obtain ⟨a, ha, rfl⟩ := mem_map_rev hr
  exact ⟨a, ha, rfl, rfl, rfl, rfl⟩

theorem producto_precio_final (P : List ProductoRow) (ob oc : Int)
    (hyp1 : ∀ r ∈ P, ∀ q : ℚ, r.precio = some q → 0 ≤ q)
    (hyp2 : ∃ r ∈ prodBase P, ∃ q : ℚ, r.precio = some q ∧ 0 < q) :
    ∀ r ∈ prepare_producto P ob oc, ∃ q : ℚ, r.precio = some q ∧ q ≠ 0 := by
  intro r hr
  rw [prepare_producto_eq] at hr
  obtain ⟨r8, hr8, rfl⟩ := mem_map_rev hr
  obtain ⟨r7, hr7, hp87, _, _, _⟩ := catFillOther_mem hr8
  obtain ⟨r6, hr6, hp76, _, _, _⟩ := catModeStep_mem hr7
  obtain ⟨r5, hr5, hp65, _, _⟩ := bothNaOther_mem hr6
  obtain ⟨q, hq5, hqpos⟩ := precio_somepos_p5 P hyp1 hyp2 r5 hr5
  refine ⟨q, ?_, ne_of_gt hqpos⟩
  show r8.precio = some q
  rw [hp87, hp76, hp65]
  exact hq5

theorem grpModeMarcaVol_mem {l : List ProductoRow} {mk : Option Int} {vk : Option ℚ}
    {c : Int} (h : grpModeMarcaVol l mk vk = some c) :
    ∃ row ∈ l, row.categoria_id = some c := by
  cases mk with
  | none => exact Option.noConfusion h
  | some m =>
    cases vk with
    | none => exact Option.noConfusion h
    | some v =>
      have h' : first_mode ((l.filter (fun r => r.marca_id = some m ∧ r.volumen = some v)).filterMap
          (fun r => r.categoria_id)) = some c := h
      obtain ⟨row, hrow, hrc⟩ := List.mem_filterMap.mp (first_mode_mem h')
      exact ⟨row, List.mem_of_mem_filter hrow, hrc⟩

theorem producto_catid_provenance (P : List ProductoRow) (ob oc : Int) :
    ∀ r ∈ prepare_producto P ob oc,
      r.categoria_id = oc ∨ ∃ r0 ∈ P, r0.categoria_id = some r.categoria_id := by
  have invD : ∀ s ∈ precioStepD (precioStepC (precioStepB (precioStepA (prodBase P)))),
      ∀ c : Int, s.categoria_id = some c → ∃ r0 ∈ P, r0.categoria_id = some c := by
    intro s hs c hc
    obtain ⟨a, ha, rfl⟩ := mem_map_rev hs
    obtain ⟨b, hb, rfl⟩ := mem_map_rev ha
    obtain ⟨d, hd, rfl⟩ := mem_map_rev hb
    obtain ⟨e, he, rfl⟩ := mem_map_rev hd
    exact ⟨e, prodBase_subset he, hc⟩
  have invE : ∀ s ∈ bothNaOther ob oc
      (precioStepD (precioStepC (precioStepB (precioStepA (prodBase P))))),
      ∀ c : Int, s.categoria_id = some c →
        c = oc ∨ ∃ r0 ∈ P, r0.categoria_id = some c := by
    intro s hs c hc
    obtain ⟨a, ha, _, _, hcase⟩ := bothNaOther_mem hs
    rcases hcase with ⟨_, hcat, _, _⟩ | ⟨_, hcat⟩
    · rw [hcat] at hc
      exact Or.inl (Option.some.inj hc).symm
    · rw [hcat] at hc
      exact Or.inr (invD a ha c hc)
  have invF : ∀ s ∈ catModeStep (bothNaOther ob oc
      (precioStepD (precioStepC (precioStepB (precioStepA (prodBase P)))))),
      ∀ c : Int, s.categoria_id = some c →
        c = oc ∨ ∃ r0 ∈ P, r0.categoria_id = some c := by
    intro s hs c hc
    obtain ⟨a, ha, _, _, _, hcase⟩ := catModeStep_mem hs
    rcases hcase with ⟨hcat, _⟩ | ⟨_, hmode⟩
    · rw [hcat] at hc
      exact invE a ha c hc
    · rw [hmode] at hc
      obtain ⟨row, hrow, hrc⟩ := grpModeMarcaVol_mem hc
      exact invE row hrow c hrc
  have invG : ∀ s ∈ catFillOther oc (catModeStep (bothNaOther ob oc
      (precioStepD (precioStepC (precioStepB (precioStepA (prodBase P))))))),
      ∀ c : Int, s.categoria_id = some c →
        c = oc ∨ ∃ r0 ∈ P, r0.categoria_id = some c := by
    intro s hs c hc
    obtain ⟨a, ha, _, _, _, hcat⟩ := catFillOther_mem hs
    rw [hcat] at hc
    have hcval : a.categoria_id.getD oc = c := Option.some.inj hc
    cases hac : a.categoria_id with
    | none =>
      rw [hac] at hcval
      exact Or.inl hcval.symm
    | some c0 =>
      rw [hac] at hcval
      have : c0 = c := hcval
      subst this
      exact invF a ha c0 hac
  intro r hr
  rw [prepare_producto_eq] at hr
  obtain ⟨r8, hr8, rfl⟩ := mem_map_rev hr
  show r8.categoria_id.getD oc = oc ∨ ∃ r0 ∈ P, r0.categoria_id = some (r8.categoria_id.getD oc)
  cases h8 : r8.categoria_id with
  | none => exact Or.inl rfl
  | some c =>
    have hres := invG r8 hr8 c h8
    rcases hres with hl | hr0
    · exact Or.inl hl
    · exact Or.inr hr0

theorem producto_marcaid_provenance (P : List ProductoRow) (ob oc : Int) :
    ∀ r ∈ prepare_producto P ob oc,
      r.marca_id = ob ∨ ∃ r0 ∈ P, r0.marca_id = some r.marca_id := by
  have invD : ∀ s ∈ precioStepD (precioStepC (precioStepB (precioStepA (prodBase P)))),
      ∀ c : Int, s.marca_id = some c → ∃ r0 ∈ P, r0.marca_id = some c := by
    intro s hs c hc
    obtain ⟨a, ha, rfl⟩ := mem_map_rev hs
    obtain ⟨b, hb, rfl⟩ := mem_map_rev ha
    obtain ⟨d, hd, rfl⟩ := mem_map_rev hb
    obtain ⟨e, he, rfl⟩ := mem_map_rev hd
    exact ⟨e, prodBase_subset he, hc⟩
  have invE : ∀ s ∈ bothNaOther ob oc
      (precioStepD (precioStepC (precioStepB (precioStepA (prodBase P))))),
      ∀ c : Int, s.marca_id = some c →
        c = ob ∨ ∃ r0 ∈ P, r0.marca_id = some c := by
    intro s hs c hc
    obtain ⟨a, ha, _, _, hcase⟩ := bothNaOther_mem hs
    rcases hcase with ⟨hm, _, _, _⟩ | ⟨hm, _⟩
    · rw [hm] at hc
      exact Or.inl (Option.some.inj hc).symm
    · rw [hm] at hc
      exact Or.inr (invD a ha c hc)
  have invF : ∀ s ∈ catModeStep (bothNaOther ob oc
      (precioStepD (precioStepC (precioStepB (precioStepA (prodBase P)))))),
      ∀ c : Int, s.marca_id = some c →
        c = ob ∨ ∃ r0 ∈ P, r0.marca_id = some c := by
    intro s hs c hc
    obtain ⟨a, ha, _, _, hm, _⟩ := catModeStep_mem hs
    rw [hm] at hc
    exact invE a ha c hc
  have invG : ∀ s ∈ catFillOther oc (catModeStep (bothNaOther ob oc
      (precioStepD (precioStepC (precioStepB (precioStepA (prodBase P))))))),
      ∀ c : Int, s.marca_id = some c →
        c = ob ∨ ∃ r0 ∈ P, r0.marca_id = some c := by
    intro s hs c hc
    obtain ⟨a, ha, _, _, hm, _⟩ := catFillOther_mem hs
    rw [hm] at hc
    exact invF a ha c hc
  intro r hr
  rw [prepare_producto_eq] at hr
  obtain ⟨r8, hr8, rfl⟩ := mem_map_rev hr
  show r8.marca_id.getD ob = ob ∨ ∃ r0 ∈ P, r0.marca_id = some (r8.marca_id.getD ob)
  cases h8 : r8.marca_id with
  | none => exact Or.inl rfl
  | some c =>
    have hres := invG r8 hr8 c h8
    rcases hres with hl | hr0
    · exact Or.inl hl
    · exact Or.inr hr0

theorem prepare_categoria_sentinel_mem {t : List CategoriaRow}
    {tc : List CategoriaCleanRow} {s : Int}
    (h : prepare_categoria t = some (tc, s)) : ∃ r ∈ tc, r.id = s := by
  simp only [prepare_categoria] at h
  by_cases hother : (catBase t).any (fun r => r.categoria = "OTHER") = true
  · rw [if_pos hother] at h
    cases hrF : (catBase t).find? (fun r => r.categoria = "OTHER") with
    | none =>
      rw [hrF] at h
      exact Option.noConfusion h
    | some rF =>
      simp only [hrF] at h
      cases hkid : rF.id with
      | none =>
        simp only [hkid] at h
        exact Option.noConfusion h
      | some k =>
        simp only [hkid] at h
        rw [catCast_eq] at h
        have hpair := Option.some.inj h
        have htc : (catBase t).map
            (fun r => (⟨r.id.getD k, r.categoria⟩ : CategoriaCleanRow)) = tc :=
          congrArg Prod.fst hpair
        have hks : k = s := congrArg Prod.snd hpair
        subst hks
        refine ⟨⟨rF.id.getD k, rF.categoria⟩, ?_, ?_⟩
        · rw [← htc]
          exact List.mem_map_of_mem _ (List.mem_of_find?_eq_some hrF)
        · show rF.id.getD k = k
          rw [hkid]
          rfl
  · rw [if_neg hother] at h
    rw [catCast_eq] at h
    set ov : Int := (maxId ((catBase t).filterMap (fun r => r.id))).getD 0 + 1 with hov
    have hpair := Option.some.inj h
    have htc : ((catBase t) ++ [(⟨some ov, "OTHER"⟩ : CategoriaNRow)]).map
        (fun r => (⟨r.id.getD ov, r.categoria⟩ : CategoriaCleanRow)) = tc :=
      congrArg Prod.fst hpair
    have hks : ov = s := congrArg Prod.snd hpair
    subst hks
    refine ⟨⟨(some ov).getD ov, "OTHER"⟩, ?_, rfl⟩
    rw [← htc]
    exact List.mem_map_of_mem _
      (List.mem_append.mpr (Or.inr (List.mem_singleton.mpr rfl)))

theorem prepare_marca_sentinel_mem {t : List MarcaRow}
    {tc : List MarcaCleanRow} {s : Int}
    (h : prepare_marca t = some (tc, s)) : ∃ r ∈ tc, r.id = s := by
  simp only [prepare_marca] at h
  by_cases hother : (marcaBase t).any (fun r => r.marca = "OTHER") = true
  · rw [if_pos hother] at h
    cases hrF : (marcaBase t).find? (fun r => r.marca = "OTHER") with
    | none =>
      rw [hrF] at h
      exact Option.noConfusion h
    | some rF =>
      simp only [hrF] at h
      cases hkid : rF.id with
      | none =>
        simp only [hkid] at h
        exact Option.noConfusion h
      | some k =>
        simp only [hkid] at h
        rw [marcaCast_eq] at h
        have hpair := Option.some.inj h
        have htc : (marcaBase t).map
            (fun r => (⟨r.id.getD k, r.marca⟩ : MarcaCleanRow)) = tc :=
          congrArg Prod.fst hpair
        have hks : k = s := congrArg Prod.snd hpair
        subst hks
        refine ⟨⟨rF.id.getD k, rF.marca⟩, ?_, ?_⟩
        · rw [← htc]
          exact List.mem_map_of_mem _ (List.mem_of_find?_eq_some hrF)
        · show rF.id.getD k = k
          rw [hkid]
          rfl
  · rw [if_neg hother] at h
    rw [marcaCast_eq] at h
    set ov : Int := (maxId ((marcaBase t).filterMap (fun r => r.id))).getD 0 + 1 with hov
    have hpair := Option.some.inj h
    have htc : ((marcaBase t) ++ [(⟨some ov, "OTHER"⟩ : MarcaNRow)]).map
        (fun r => (⟨r.id.getD ov, r.marca⟩ : MarcaCleanRow)) = tc :=
      congrArg Prod.fst hpair
    have hks : ov = s := congrArg Prod.snd hpair
    subst hks
    refine ⟨⟨(some ov).getD ov, "OTHER"⟩, ?_, rfl⟩
    rw [← htc]
    exact List.mem_map_of_mem _
      (List.mem_append.mpr (Or.inr (List.mem_singleton.mpr rfl)))

/-- C3 (amended): every prepare_producto output row has integer (non-missing)
categoria_id and marca_id; precio is non-missing and non-zero provided all
input precio values are non-negative and at least one row surviving the dedup
and drop stages has a positive precio (with no such row the global median is
missing and precio can stay missing); the sentinel ids always occur as ids of
the cleaned dimension tables; and every output categoria_id (resp. marca_id)
is either the category (resp. brand) sentinel or a value already present in
the input column — the code never validates ids carried over from the input
against the dimension tables. -/
theorem C3_producto_resolution :
    (∀ (P : List ProductoRow) (ob oc : Int),
      (∀ r ∈ P, ∀ q : ℚ, r.precio = some q → 0 ≤ q) →
      (∃ r ∈ prodBase P, ∃ q : ℚ, r.precio = some q ∧ 0 < q) →
      ∀ r ∈ prepare_producto P ob oc, ∃ q : ℚ, r.precio = some q ∧ q ≠ 0)
    ∧ (∀ (t : List CategoriaRow) (tc : List CategoriaCleanRow) (s : Int),
        prepare_categoria t = some (tc, s) → ∃ r ∈ tc, r.id = s)
    ∧ (∀ (t : List MarcaRow) (tc : List MarcaCleanRow) (s : Int),
        prepare_marca t = some (tc, s) → ∃ r ∈ tc, r.id = s)
    ∧ (∀ (P : List ProductoRow) (ob oc : Int), ∀ r ∈ prepare_producto P ob oc,
        (r.categoria_id = oc ∨ ∃ r0 ∈ P, r0.categoria_id = some r.categoria_id) ∧
        (r.marca_id = ob ∨ ∃ r0 ∈ P, r0.marca_id = some r.marca_id)) :=
  ⟨fun P ob oc h1 h2 => producto_precio_final P ob oc h1 h2,
   fun _ _ _ h => prepare_categoria_sentinel_mem h,
   fun _ _ _ h => prepare_marca_sentinel_mem h,
   fun P ob oc r hr => ⟨producto_catid_provenance P ob oc r hr,
                        producto_marcaid_provenance P ob oc r hr⟩⟩

/-- C3 counterexample: a single product row with precio 0 and pre-existing
foreign keys 999 — the price cascade exhausts with an all-missing column, so
precio stays missing, and the untouched 999 keys reference no row of the
cleaned dimension tables (whose ids are 1 and 2). -/
theorem C3_counterexample :
    prepare_producto [⟨some 1, some "A", some 999, some 999, some 1, some 0⟩] 2 2 =
      [⟨1, "A", 999, 999, some 1, none⟩] ∧
    prepare_categoria [⟨some 1, some "X"⟩] = some ([⟨1, "X"⟩, ⟨2, "OTHER"⟩], 2) ∧
    prepare_marca [⟨some 1, some "Y"⟩] = some ([⟨1, "Y"⟩, ⟨2, "OTHER"⟩], 2) ∧
    ([⟨1, "X"⟩, ⟨2, "OTHER"⟩] : List CategoriaCleanRow).map (fun r => r.id) = [1, 2] ∧
    ¬ ((999 : Int) ∈ [(1 : Int), 2]) :=
  ⟨by decide, by decide, by decide, by decide, by decide⟩

/-- C3 witness: the precio clause applied to a one-row table with positive
precio 5 — the output keeps the non-zero price. -/
theorem C3_witness :
    ∃ q : ℚ, (⟨1, "A", 1, 1, some 1, some 5⟩ : ProductoCleanRow).precio = some q ∧ q ≠ 0 :=
  C3_producto_resolution.1 [⟨some 1, some "A", some 1, some 1, some 1, some 5⟩] 2 2
    (by
      intro r hr q hq
      rcases List.mem_singleton.mp hr with rfl
      have h5 : (5 : ℚ) = q := Option.some.inj hq
      rw [← h5]
      norm_num)
    ⟨⟨some 1, some "A", some 1, some 1, some 1, some 5⟩, by decide, 5, rfl, by norm_num⟩
    ⟨1, "A", 1, 1, some 1, some 5⟩ (by decide)
